import Mathlib

/-!
Shallow embedding of `extract_openreview_comments/formatter.py` (the
`MarkdownFormatter` class): Python values appearing in note content are
modelled by `PyVal`, notes by `Note`, and each method of the class by a
Lean function of the same name.  Fallible rendering code (Python can raise
`AttributeError` when `_extract_value` returns a non-string truthy value
that is then `.split`) is modelled with `Except String`.
-/

set_option linter.unusedVariables false
set_option maxRecDepth 100000

namespace ORC

/-- A Python value as it can appear in a note's `content` mapping:
`None`, `bool`, `int`, `str`, `list`, or `dict` (assoc list, first key
wins on lookup, as in a Python dict with unique keys).  Python floats are
not modelled (no claim exercises them); numbers are `int`. -/
inductive PyVal where
  | none
  | bool (b : Bool)
  | int (n : Int)
  | str (s : String)
  | list (xs : List PyVal)
  | dict (entries : List (String × PyVal))

/-- Python truthiness of a `PyVal` (`bool(v)`). -/
def pyTruthy : PyVal → Bool
  | .none => false
  | .bool b => b
  | .int n => n != 0
  | .str s => s != ""
  | .list xs => !xs.isEmpty
  | .dict es => !es.isEmpty

/-- `d.get(k)` on a Python dict: first binding wins; absent key gives
Python `None`. -/
def dictGet (entries : List (String × PyVal)) (k : String) : PyVal :=
  match entries.find? (fun p => p.1 == k) with
  | Option.some p => p.2
  | Option.none => PyVal.none

/-- `k in d` on a Python dict. -/
def dictHas (entries : List (String × PyVal)) (k : String) : Bool :=
  entries.any (fun p => p.1 == k)

mutual
/-- Python `str(v)`.  String escaping inside `repr` of nested lists and
dicts is simplified (no quote escaping); no claim displays nested
containers. -/
def pyStr : PyVal → String
  | .none => "None"
  | .bool b => if b then "True" else "False"
  | .int n => toString n
  | .str s => s
  | .list xs => "[" ++ pyStrList xs ++ "]"
  | .dict es => "\x7b" ++ pyStrDict es ++ "\x7d"

/-- Comma-joined `repr`s of list elements. -/
def pyStrList : List PyVal → String
  | [] => ""
  | [x] => pyRepr x
  | x :: xs => pyRepr x ++ ", " ++ pyStrList xs

/-- Comma-joined `'k': repr(v)` entries of a dict. -/
def pyStrDict : List (String × PyVal) → String
  | [] => ""
  | [(k, v)] => "\x27" ++ k ++ "\x27: " ++ pyRepr v
  | (k, v) :: es => "\x27" ++ k ++ "\x27: " ++ pyRepr v ++ ", " ++ pyStrDict es

/-- Python `repr(v)` as used when a container is displayed. -/
def pyRepr : PyVal → String
  | .str s => "\x27" ++ s ++ "\x27"
  | v => pyStr v
end

/-! ## Model of Python `html.unescape`

`html.unescape` substitutes every match of
`&(#[0-9]+;?|#[xX][0-9a-fA-F]+;?|[^\t\n\f <&#;]\x7b1,32\x7d;?)` in a single
left-to-right pass.  The named-entity table is restricted to the entities
exercised by this repository's data and tests (the full html5 table has
about two thousand entries, each with and without trailing semicolon);
the Windows-1252 numeric remappings (0x80-0x9F) and the suppression of
invalid control codepoints of the stdlib are not modelled (no claim
reaches them): numeric references that are 0, surrogates, or beyond
0x10FFFF decode to U+FFFD, all others to the codepoint itself. -/

/-- Characters allowed inside a named character reference
(`[^\t\n\f <&#;]`). -/
def isRefChar (c : Char) : Bool :=
  !(c == '\t' || c == '\n' || c == '\x0c' || c == ' ' || c == '<' ||
    c == '&' || c == '#' || c == ';')

/-- Named entities modelled (subset of Python's `html5` dict; keys appear
both with and without the trailing semicolon exactly as in the stdlib
table). -/
def html5Entities : List (String × String) :=
  [("amp;", "&"), ("amp", "&"),
   ("lt;", "<"), ("lt", "<"),
   ("gt;", ">"), ("gt", ">"),
   ("quot;", "\""), ("quot", "\""),
   ("apos;", "\x27"),
   ("nbsp;", " "), ("nbsp", " ")]

/-- Look a candidate name up in the entity table. -/
def lookupEntity (cand : List Char) : Option (List Char) :=
  match html5Entities.find? (fun p => p.1.data == cand) with
  | Option.some p => Option.some p.2.data
  | Option.none => Option.none

/-- Longest strict-prefix lookup, lengths `x, x-1, ..., 2`, as in
`_replace_charref`'s fallback loop. -/
def tryEntityPrefixes (cand : List Char) : Nat → Option (List Char × Nat)
  | 0 => Option.none
  | 1 => Option.none
  | Nat.succ x =>
    match lookupEntity (cand.take (x + 1)) with
    | Option.some repl => Option.some (repl, x + 1)
    | Option.none => tryEntityPrefixes cand x

/-- Collect up to `n` reference-name characters. -/
def takeRefName : Nat → List Char → List Char
  | _, [] => []
  | 0, _ => []
  | Nat.succ n, c :: rest =>
    if isRefChar c then c :: takeRefName n rest else []

/-- Numeric value of a hex digit (only called on hex digits). -/
def hexVal (c : Char) : Nat :=
  if c.isDigit then c.toNat - 48
  else if 'a' ≤ c ∧ c ≤ 'f' then c.toNat - 87
  else c.toNat - 55

/-- Is `c` a hexadecimal digit? -/
def isHexDigitChar (c : Char) : Bool :=
  c.isDigit || ('a' ≤ c && c ≤ 'f') || ('A' ≤ c && c ≤ 'F')

/-- Decode a numeric character reference, `_replace_charref`'s numeric
branch (restricted as described above). -/
def numRepl (num : Nat) : List Char :=
  if num = 0 then ['�']
  else if 0xD800 ≤ num ∧ num ≤ 0xDFFF then ['�']
  else if 0x10FFFF < num then ['�']
  else [Char.ofNat num]

/-- Try to match a character reference right after a `&`; returns the
replacement text and the number of characters consumed. -/
def scanRef (rest : List Char) : Option (List Char × Nat) :=
  match rest with
  | '#' :: more =>
    match more with
    | c :: more2 =>
      if c == 'x' || c == 'X' then
        let digits := more2.takeWhile isHexDigitChar
        if digits.isEmpty then Option.none
        else
          let num := digits.foldl (fun a d => a * 16 + hexVal d) 0
          let semi := if (more2.drop digits.length).head? == Option.some ';' then 1 else 0
          Option.some (numRepl num, 2 + digits.length + semi)
      else
        let digits := more.takeWhile Char.isDigit
        if digits.isEmpty then Option.none
        else
          let num := digits.foldl (fun a d => a * 10 + (d.toNat - 48)) 0
          let semi := if (more.drop digits.length).head? == Option.some ';' then 1 else 0
          Option.some (numRepl num, 1 + digits.length + semi)
    | [] => Option.none
  | _ =>
    let name := takeRefName 32 rest
    if name.isEmpty then Option.none
    else
      let afterName := rest.drop name.length
      let haveSemi : Bool := afterName.head? == Option.some ';'
      let cand := if haveSemi then name ++ [';'] else name
      let consumed := cand.length
      match lookupEntity cand with
      | Option.some repl => Option.some (repl, consumed)
      | Option.none =>
        match tryEntityPrefixes cand (cand.length - 1) with
        | Option.some (repl, x) => Option.some (repl ++ cand.drop x, consumed)
        | Option.none => Option.some ('&' :: cand, consumed)

/-- One pass of `_charref.sub(_replace_charref, s)` over the characters.
The `fuel` argument (structural, instantiated with the input length,
which bounds the number of steps since every step consumes at least one
character) only makes the recursion structural. -/
def unescapeFrom : Nat → List Char → List Char
  | _, [] => []
  | 0, s => s
  | Nat.succ fuel, '&' :: rest =>
    match scanRef rest with
    | Option.some (repl, k) => repl ++ unescapeFrom fuel (rest.drop k)
    | Option.none => '&' :: unescapeFrom fuel rest
  | Nat.succ fuel, c :: rest => c :: unescapeFrom fuel rest

/-- Python `html.unescape` (including its `'&' not in s` fast path). -/
def htmlUnescape (s : String) : String :=
  if s.data.contains '&' then String.mk (unescapeFrom s.data.length s.data) else s

/-- `MarkdownFormatter._extract_value`: the inner value of a wrapped
field, a raw string, or `str()` of a raw number (Python's
`isinstance(field, (int, float))` also matches `bool`); anything else
passes through unchanged — including, for the wrapped form, a non-string
inner value, which is returned as is.  HTML entities are unescaped only
when the result is a truthy string. -/
def extract_value (field : PyVal) : PyVal :=
  let value : PyVal :=
    match field with
    | .dict entries => dictGet entries "value"
    | .str s => .str s
    | .bool b => .str (if b then "True" else "False")
    | .int n => .str (toString n)
    | _ => .none
  match value with
  | .str s => if s != "" then .str (htmlUnescape s) else .str s
  | v => v

/-! ## Dates

`datetime.fromtimestamp(cdate / 1000).strftime(...)` formats the local
date; the local timezone is modelled as UTC (the repository's own test
suite assumes a timezone in which `1609459200000` renders as
`2021-01-01`).  The civil-from-days conversion is the standard
Gregorian-calendar algorithm. -/

/-- Zero-pad to two digits (arguments are in `[0, 99]`). -/
def pad2 (n : Int) : String :=
  if n < 10 then "0" ++ toString n else toString n

/-- Days since 1970-01-01 to `(year, month, day)` in the proleptic
Gregorian calendar. -/
def civilFromDays (z0 : Int) : Int × Int × Int :=
  let z := z0 + 719468
  let era := Int.fdiv z 146097
  let doe := z - era * 146097
  let yoe := Int.fdiv (doe - Int.fdiv doe 1460 + Int.fdiv doe 36524 - Int.fdiv doe 146096) 365
  let doy := doe - (365 * yoe + Int.fdiv yoe 4 - Int.fdiv yoe 100)
  let mp := Int.fdiv (5 * doy + 2) 153
  let d := doy - Int.fdiv (153 * mp + 2) 5 + 1
  let m := mp + (if mp < 10 then 3 else -9)
  let y := yoe + era * 400 + (if m ≤ 2 then 1 else 0)
  (y, m, d)

/-- `datetime.fromtimestamp(ms / 1000).strftime("%Y-%m-%d %H:%M:%S")`
with local time = UTC. -/
def fmtTimestamp (ms : Int) : String :=
  let secs := Int.fdiv ms 1000
  let days := Int.fdiv secs 86400
  let sod := secs - days * 86400
  let c := civilFromDays days
  let h := Int.fdiv sod 3600
  let mi := Int.fdiv (sod - h * 3600) 60
  let s := sod - h * 3600 - mi * 60
  toString c.1 ++ "-" ++ pad2 c.2.1 ++ "-" ++ pad2 c.2.2 ++ " " ++
    pad2 h ++ ":" ++ pad2 mi ++ ":" ++ pad2 s

/-- `datetime.fromtimestamp(ms / 1000).strftime("%Y%m%d")` with local
time = UTC. -/
def fmtYYYYMMDD (ms : Int) : String :=
  let secs := Int.fdiv ms 1000
  let days := Int.fdiv secs 86400
  let c := civilFromDays days
  toString c.1 ++ pad2 c.2.1 ++ pad2 c.2.2

/-! ## Notes -/

/-- An OpenReview note as the formatter sees it (`Note` object or dict;
`_get_attr` reads the same attributes from either, so one model
suffices).  `Option.none` in a field models an absent attribute or
Python `None`.  `details` models `details["directReplies"]`: `none` for
a falsy/absent `details` dict, `some rs` for a truthy `details` whose
`directReplies` list is `rs` (absent `directReplies` gives `some []`,
which renders identically). -/
inductive Note where
  | mk (id : Option String) (signatures : Option (List String))
       (cdate : Option Int) (replyto : Option String)
       (content : Option (List (String × PyVal)))
       (details : Option (List Note))

/-- The note's `id` attribute. -/
def Note.id : Note → Option String
  | .mk i _ _ _ _ _ => i

/-- The note's `signatures` attribute. -/
def Note.signatures : Note → Option (List String)
  | .mk _ sg _ _ _ _ => sg

/-- The note's `cdate` attribute. -/
def Note.cdate : Note → Option Int
  | .mk _ _ cd _ _ _ => cd

/-- The note's `replyto` attribute. -/
def Note.replyto : Note → Option String
  | .mk _ _ _ rt _ _ => rt

/-- The note's `content` attribute. -/
def Note.content : Note → Option (List (String × PyVal))
  | .mk _ _ _ _ ct _ => ct

/-- The note's `details["directReplies"]` (see `Note`). -/
def Note.details : Note → Option (List Note)
  | .mk _ _ _ _ _ dt => dt

/-- Truthiness of an optional string (`None` and `""` are falsy). -/
def truthyStr : Option String → Option String
  | Option.some s => if s = "" then Option.none else Option.some s
  | Option.none => Option.none

/-- Truthiness of an optional integer (`None` and `0` are falsy). -/
def cdateTruthy : Option Int → Option Int
  | Option.some c => if c = 0 then Option.none else Option.some c
  | Option.none => Option.none

/-- `", ".join(signatures_raw) if signatures_raw else "Anonymous"`. -/
def sigDisplay : Option (List String) → String
  | Option.some (s :: rest) => String.intercalate ", " (s :: rest)
  | Option.some [] => "Anonymous"
  | Option.none => "Anonymous"

/-- The date line text: formatted timestamp, or `"Unknown date"` when
`cdate` is falsy. -/
def dateDisplay (cd : Option Int) : String :=
  match cdateTruthy cd with
  | Option.some c => fmtTimestamp c
  | Option.none => "Unknown date"

/-- `"  " * level`. -/
def strRepeatN (s : String) : Nat → String
  | 0 => ""
  | Nat.succ n => s ++ strRepeatN s n

/-- Python `field_value.split("\n")` on the character list. -/
def splitNl : List Char → List (List Char)
  | [] => [[]]
  | c :: rest =>
    if c = '\n' then [] :: splitNl rest
    else
      match splitNl rest with
      | [] => [[c]]
      | p :: ps => (c :: p) :: ps

/-- Python `s.split("\n")`. -/
def splitNlStr (s : String) : List String :=
  (splitNl s.data).map String.mk

/-- An f-string interpolation `f"... \x7bv\x7d"`: `str(v)`.  The atomic
cases are split out (with the same values `pyStr` gives them) so that
concrete renders reduce without unfolding the recursive `pyStr`. -/
def displayValue : PyVal → String
  | .str s => s
  | .none => "None"
  | .bool b => if b then "True" else "False"
  | .int n => toString n
  | v => pyStr v

/-- Python `str.title()` for ASCII words (uppercase a letter that starts
a word, lowercase the rest); only applied to the fixed field-name
literals of the formatter. -/
def pyTitleAux : Bool → List Char → List Char
  | _, [] => []
  | prev, c :: rest =>
    (if c.isAlpha then (if prev then c.toLower else c.toUpper) else c) ::
      pyTitleAux c.isAlpha rest

/-- Python `s.title()`. -/
def pyTitle (s : String) : String := String.mk (pyTitleAux false s.data)

/-- Python `s.replace(old, new)` for one-character patterns (the only
form the formatter uses): replace every occurrence of the character. -/
def pyReplaceChar (s : String) (old new : Char) : String :=
  String.mk (s.data.map (fun c => if c = old then new else c))

/-- `"\n".join(lines)`. -/
def pyJoinNl : List String → String
  | [] => ""
  | [l] => l
  | l :: ls => l ++ "\n" ++ pyJoinNl ls

/-- Sequence a line-producing computation over a list of field names. -/
def fieldsExcept (f : String → Except String (List String)) :
    List String → Except String (List String)
  | [] => Except.ok []
  | n :: ns => do
    let l ← f n
    let rest ← fieldsExcept f ns
    Except.ok (l ++ rest)

/-- One iteration of the `comment/review/summary/response` loop: a
heading line, a blank, the extracted value's lines re-indented, a blank.
When the extracted value is truthy but not a string the Python code
calls `.split("\n")` on it and raises `AttributeError`. -/
def mainFieldLines (entries : List (String × PyVal)) (indent : String)
    (level : Nat) (fname : String) : Except String (List String) :=
  if dictHas entries fname then
    let fv := extract_value (dictGet entries fname)
    if pyTruthy fv then
      match fv with
      | .str s =>
        Except.ok ([indent ++ "**" ++ pyTitle fname ++ ":**", ""] ++
          (splitNlStr s).map (fun line => indent ++ line) ++ [""])
      | _ =>
        Except.error "AttributeError: object has no attribute split"
    else Except.ok []
  else Except.ok []

/-- One iteration of the `rating/confidence/strengths/weaknesses/questions`
loop: a single `**Label:** value` line plus a blank (the f-string
displays any truthy value via `str`). -/
def otherFieldLines (entries : List (String × PyVal)) (indent : String)
    (fname : String) : List String :=
  if dictHas entries fname then
    let fv := extract_value (dictGet entries fname)
    if pyTruthy fv then
      [indent ++ "**" ++ pyTitle (pyReplaceChar fname '_' ' ') ++ ":** " ++ displayValue fv, ""]
    else []
  else []

/-- The two header lines plus blank of a note render. -/
def noteHeaderLines (sg : Option (List String)) (cd : Option Int)
    (indent : String) : List String :=
  [indent ++ "## Comment by " ++ sigDisplay sg,
   indent ++ "**Date:** " ++ dateDisplay cd, ""]

/-- The title block: emitted only when a `title` field exists, the level
is positive (the root-level title is suppressed) and extraction is
truthy. -/
def titleLines (entries : List (String × PyVal)) (indent : String)
    (level : Nat) : List String :=
  if dictHas entries "title" && decide (level > 0) then
    if pyTruthy (extract_value (dictGet entries "title")) then
      [indent ++ "**Title:** " ++
        displayValue (extract_value (dictGet entries "title")), ""]
    else []
  else []

/-- The single-line fields block
(`rating/confidence/strengths/weaknesses/questions`). -/
def otherLines (entries : List (String × PyVal)) (indent : String) :
    List String :=
  ((["rating", "confidence", "strengths", "weaknesses",
    "questions"] : List String).map (otherFieldLines entries indent)).flatten

/-- The header/date/content block of a note render.  This block appears
verbatim twice in the source (in `format_note` and again in
`_format_note_recursive`); it is factored here once.  `level` drives
both the indent and the title suppression.  A falsy `content` (absent or
empty dict) emits only the header. -/
def noteCoreLines (sg : Option (List String)) (cd : Option Int)
    (ct : Option (List (String × PyVal))) (level : Nat) :
    Except String (List String) :=
  let indent := strRepeatN "  " level
  match ct with
  | Option.none => Except.ok (noteHeaderLines sg cd indent)
  | Option.some entries =>
    if entries.isEmpty then Except.ok (noteHeaderLines sg cd indent)
    else
      (fieldsExcept (mainFieldLines entries indent level)
          ["comment", "review", "summary", "response"]).bind
        (fun mainL => Except.ok (noteHeaderLines sg cd indent ++
          (titleLines entries indent level ++ mainL ++
            otherLines entries indent)))

mutual
/-- `MarkdownFormatter.format_note`: single-note render; when
`include_replies` is set, direct replies come from the advisory
`details["directReplies"]` list, each rendered one level deeper. -/
def format_note (note : Note) (include_replies : Bool) (level : Nat) :
    Except String String :=
  match note with
  | .mk _ sg cd _ ct dt => do
    let core ← noteCoreLines sg cd ct level
    let indent := strRepeatN "  " level
    let replyLines ←
      match include_replies, dt with
      | true, Option.some replies =>
        if replies.isEmpty then pure ([] : List String)
        else do
          let rs ← format_note_list replies (level + 1)
          pure ([indent ++ "### Replies:", ""] ++ rs)
      | _, _ => pure []
    Except.ok (pyJoinNl (core ++ replyLines ++ [indent ++ "---", ""]))

/-- The `for reply in replies` loop of `format_note`. -/
def format_note_list : List Note → Nat → Except String (List String)
  | [], _ => Except.ok []
  | n :: ns, level => do
    let md ← format_note n true level
    let rest ← format_note_list ns level
    Except.ok (md :: rest)
end

/-- Sort key used everywhere: `n.cdate if n.cdate else 0`. -/
def noteKey (n : Note) : Int :=
  match cdateTruthy n.cdate with
  | Option.some c => c
  | Option.none => 0

/-- The comparison relation of the Python sorts (by `noteKey`). -/
def noteLE (a b : Note) : Prop := noteKey a ≤ noteKey b

instance : DecidableRel noteLE := fun a b => Int.decLe _ _

/-- Python's stable `sorted(notes, key=...)` / `list.sort(key=...)`,
modelled by (stable) insertion sort. -/
def pySort (l : List Note) : List Note := List.insertionSort noteLE l

/-- Append a note at the end of the bucket for key `k` (Python
`children_map[replyto].append(note)` with on-demand bucket creation). -/
def addChild (m : List (String × List Note)) (k : String) (n : Note) :
    List (String × List Note) :=
  match m with
  | [] => [(k, [n])]
  | (k2, l) :: rest =>
    if k2 = k then (k2, l ++ [n]) :: rest else (k2, l) :: addChild rest k n

/-- `children_map.get(note_id, [])`. -/
def childrenGet (m : List (String × List Note)) (k : String) : List Note :=
  match m.find? (fun p => p.1 == k) with
  | Option.some p => p.2
  | Option.none => []

/-- The loop body of `_build_children_map`: append the note to the
bucket of its truthy `replyto`, or do nothing for a parent-less note. -/
def cmStep (m : List (String × List Note)) (note : Note) :
    List (String × List Note) :=
  match truthyStr note.replyto with
  | Option.some r => addChild m r note
  | Option.none => m

/-- `MarkdownFormatter._build_children_map`: group the notes by truthy
`replyto`, then sort every bucket by creation date. -/
def _build_children_map (notes : List Note) : List (String × List Note) :=
  (notes.foldl cmStep []).map (fun p => (p.1, pySort p.2))

/-- Sequence a fallible computation over a list (the shape of every
`for reply in replies` loop under `Except`). -/
def mapExcept (f : α → Except String β) : List α → Except String (List β)
  | [] => Except.ok []
  | x :: xs => do
    let y ← f x
    let ys ← mapExcept f xs
    Except.ok (y :: ys)

/-- `MarkdownFormatter._format_note_recursive`: like `format_note` but
children always come from the children map (built from `replyto`), never
from `details`.  The Python recursion has no cycle protection and
overflows the interpreter stack on a parent cycle; this is modelled by
explicit fuel, whose exhaustion is the `RecursionError`. -/
def _format_note_recursive : Nat → Note → List (String × List Note) → Nat →
    Except String String
  | 0, _, _, _ => Except.error "RecursionError: maximum recursion depth exceeded"
  | Nat.succ fuel, note, cm, level =>
    match note with
    | .mk i sg cd _ ct _ => do
      let core ← noteCoreLines sg cd ct level
      let indent := strRepeatN "  " level
      let replies :=
        match truthyStr i with
        | Option.some nid => childrenGet cm nid
        | Option.none => []
      let replyLines ←
        if replies.isEmpty then pure ([] : List String)
        else do
          let rs ← mapExcept
            (fun r => _format_note_recursive fuel r cm (level + 1)) replies
          pure ([indent ++ "### Replies:", ""] ++ rs)
      Except.ok (pyJoinNl (core ++ replyLines ++ [indent ++ "---", ""]))

/-- `MarkdownFormatter.format_all_notes`: header with total count, sort
by creation date, build the children map, pick the first parent-less
note as main submission (rendered without replies), then render its
children depth-first through the children map.  The fuel
`notes.length + 1` is enough for every acyclic input. -/
def format_all_notes (notes : List Note) (submission_title : String) :
    Except String String := do
  let headerLines := ["# " ++ submission_title, "",
    "**Total Comments:** " ++ toString notes.length, "", "---", ""]
  let sorted_notes := pySort notes
  let children_map := _build_children_map sorted_notes
  let main_submission := sorted_notes.find? (fun n => (truthyStr n.replyto).isNone)
  let subLines ←
    match main_submission with
    | Option.some ms => do
      let md ← format_note ms false 0
      pure ["# Main Submission", "", md, ""]
    | Option.none => pure []
  let top_level :=
    match main_submission with
    | Option.some ms =>
      match truthyStr ms.id with
      | Option.some mid => childrenGet children_map mid
      | Option.none => []
    | Option.none => []
  let commentLines ← mapExcept
    (fun n => _format_note_recursive (notes.length + 1) n children_map 0) top_level
  Except.ok (pyJoinNl (headerLines ++ subLines ++ ["# Comments and Reviews", ""] ++
    commentLines))

/-- `MarkdownFormatter.format_note_to_file`: build the sanitized file
name from the date and signatures (the `filename` argument is unused in
the source), and pair it with the full single-note render. -/
def format_note_to_file (note : Note) (filename : String) :
    Except String (String × String) :=
  match note with
  | .mk _ sg cd _ _ _ => do
    let signatures := sigDisplay sg
    let date_str :=
      match cdateTruthy cd with
      | Option.some c => fmtYYYYMMDD c
      | Option.none => "unknown"
    let safe_filename :=
      date_str ++ "_" ++ pyReplaceChar (pyReplaceChar signatures '/' '_') ' ' '_' ++ ".md"
    let markdown ← format_note note true 0
    Except.ok (markdown, safe_filename)

/-! ## Substring occurrence machinery -/

/-- `p` is a prefix of `s` (on character lists). -/
def leadsWith : List Char → List Char → Bool
  | [], _ => true
  | _ :: _, [] => false
  | a :: p, b :: s => a == b && leadsWith p s

/-- `p` occurs somewhere in `s` (on character lists). -/
def occursIn : List Char → List Char → Bool
  | p, [] => leadsWith p []
  | p, s@(_ :: rest) => leadsWith p s || occursIn p rest

/-- `p` occurs somewhere in `s` (on strings). -/
def strOccurs (p s : String) : Bool := occursIn p.data s.data

/-- Index of the first occurrence of `p` in `s`, if any. -/
def occursIdx : List Char → List Char → Option Nat
  | p, [] => if leadsWith p [] then Option.some 0 else Option.none
  | p, s@(_ :: rest) =>
    if leadsWith p s then Option.some 0 else (occursIdx p rest).map (· + 1)

/-- Index of the first occurrence of `p` in `s`, on strings. -/
def strIdx (p s : String) : Option Nat := occursIdx p.data s.data

/-- Both indices exist and the first is strictly smaller. -/
def ltOpt : Option Nat → Option Nat → Bool
  | Option.some a, Option.some b => a < b
  | _, _ => false

/-- None of the four raw entity sequences of the spec's examples occurs
in `s`. -/
def entityFree (s : String) : Bool :=
  !(strOccurs "&#39;" s || strOccurs "&amp;" s ||
    strOccurs "&lt;" s || strOccurs "&gt;" s)

/-! ## Concrete example notes used by the claims -/

/-- Root submission `S` of the four-node thread of the spec's ordering
example (no parent, no inline reply summary). -/
def noteS : Note :=
  Note.mk (Option.some "S") (Option.some ["SubAuthor"]) Option.none Option.none
    (Option.some [("title", PyVal.dict [("value", PyVal.str "Test Paper")])])
    Option.none

/-- Comment `C1`, parent `S`, created at 100. -/
def noteC1 : Note :=
  Note.mk (Option.some "C1") (Option.some ["SigC1"]) (Option.some 100)
    (Option.some "S")
    (Option.some [("comment", PyVal.dict [("value", PyVal.str "C1TEXT")])])
    Option.none

/-- Comment `C2`, parent `S`, created at 200. -/
def noteC2 : Note :=
  Note.mk (Option.some "C2") (Option.some ["SigC2"]) (Option.some 200)
    (Option.some "S")
    (Option.some [("comment", PyVal.dict [("value", PyVal.str "C2TEXT")])])
    Option.none

/-- Grandchild `G1`, parent `C1`, created at 300. -/
def noteG1 : Note :=
  Note.mk (Option.some "G1") (Option.some ["SigG1"]) (Option.some 300)
    (Option.some "C1")
    (Option.some [("comment", PyVal.dict [("value", PyVal.str "G1TEXT")])])
    Option.none

/-- A note whose `comment` field is the wrapped number `{value: 5}`:
`_extract_value` returns the `int` itself and `format_note` then calls
`.split("\n")` on it. -/
def crashNote : Note :=
  Note.mk (Option.some "x") Option.none Option.none Option.none
    (Option.some [("comment", PyVal.dict [("value", PyVal.int 5)])])
    Option.none

/-- The file-unit example note: created 2021-01-01, single signature
`"Reviewer ABC"`. -/
def noteReviewerABC : Note :=
  Note.mk (Option.some "n") (Option.some ["Reviewer ABC"])
    (Option.some 1609459200000) Option.none
    (Option.some [("comment", PyVal.dict [("value", PyVal.str "Test comment")])])
    Option.none

/-- A node with a non-empty `title` and a `comment` whose text itself
contains `"**Title:**"` (the injection counterexample for C7). -/
def titleInjectionNote : Note :=
  Note.mk (Option.some "t") Option.none Option.none Option.none
    (Option.some [("title", PyVal.str "Real title"),
                  ("comment", PyVal.str "**Title:** fake")])
    Option.none

/-- Number of (possibly overlapping) occurrences of `p` in `s`. -/
def countIn : List Char → List Char → Nat
  | p, [] => if leadsWith p [] then 1 else 0
  | p, s@(_ :: rest) => (if leadsWith p s then 1 else 0) + countIn p rest

/-- Number of occurrences of `p` in `s`, on strings. -/
def strCount (p s : String) : Nat := countIn p.data s.data

/-- Replace a note's `details` (everything else kept). -/
def setDetails (n : Note) (d : Option (List Note)) : Note :=
  match n with
  | .mk i sg cd rt ct _ => .mk i sg cd rt ct d

/-- The fields `_build_children_map`, the sorts, and the root search
read: `id`, `replyto` and `cdate`.  A function preserving them can only
change a note's displayed payload (signatures, content, details). -/
def structPreserving (g : Note → Note) : Prop :=
  ∀ n, (g n).id = n.id ∧ (g n).replyto = n.replyto ∧ (g n).cdate = n.cdate

/-- The children list `_format_note_recursive` fetches for a note: the
bucket of its truthy `id`, or nothing. -/
def childrenOf (cm : List (String × List Note)) (n : Note) : List Note :=
  match truthyStr n.id with
  | Option.some i => childrenGet cm i
  | Option.none => []

/-- The notes visited when `_format_note_recursive` renders each note of
`ns` with the given fuel: the note itself, then (with one fuel less) the
children its truthy `id` finds in the map.  This mirrors the render
recursion exactly, so it is the set of notes whose payload the
comments section can read. -/
def visitedFrom : Nat → List (String × List Note) → List Note → List Note
  | 0, _, _ => []
  | Nat.succ fuel, cm, ns =>
    (ns.map (fun n => n :: visitedFrom fuel cm (childrenOf cm n))).flatten

/-- The notes whose payload `format_all_notes` reads: the chosen main
submission (if any) and every note the comments section visits starting
from its children — i.e. the notes reachable from the root through the
children map. -/
def reachSet (notes : List Note) : List Note :=
  let sorted := pySort notes
  let cm := _build_children_map sorted
  match sorted.find? (fun n => (truthyStr n.replyto).isNone) with
  | Option.some ms => ms :: visitedFrom (notes.length + 1) cm (childrenOf cm ms)
  | Option.none => []

/-- An orphan note: its `replyto` names an id (`"ZZZ"`) that no note in
the input carries, so it is unreachable from the root. -/
def orphanNote : Note :=
  Note.mk (Option.some "O") (Option.some ["SigO"]) (Option.some 400)
    (Option.some "ZZZ")
    (Option.some [("comment", PyVal.dict [("value", PyVal.str "ORPHANTEXT")])])
    Option.none

/-- A benign note with a non-empty title and a comment free of the
`"**Title:**"` marker (used to witness the amended C7). -/
def c7Note : Note :=
  Note.mk (Option.some "t7") (Option.some ["SigT"]) Option.none Option.none
    (Option.some [("title", PyVal.str "Real title"),
                  ("comment", PyVal.str "hello")])
    Option.none

/-- Everything after the title line in the whole-thread render of an
empty note list (the join of the remaining seven fixed lines). -/
def c8tail : String :=
  "\n**Total Comments:** 0\n\n---\n\n# Comments and Reviews\n"

instance : IsTotal Note noteLE :=
  ⟨fun a b => Int.le_total (noteKey a) (noteKey b)⟩

instance : IsTrans Note noteLE :=
  ⟨fun _ _ _ hab hbc => le_trans hab hbc⟩

/-- Apply a note transformation to every note stored in a children map
(buckets keep their keys). -/
def cmMap (g : Note → Note) (m : List (String × List Note)) :
    List (String × List Note) :=
  m.map (fun p => (p.1, p.2.map g))

/-- A transformation that can only change a note's `details`: every
other attribute is preserved. -/
def detailsOnly (g : Note → Note) : Prop :=
  ∀ n, (g n).id = n.id ∧ (g n).signatures = n.signatures ∧
    (g n).cdate = n.cdate ∧ (g n).replyto = n.replyto ∧
    (g n).content = n.content

/-- The nine content field names the renderer can emit besides the
title. -/
def emittedFieldNames : List String :=
  ["comment", "review", "summary", "response",
   "rating", "confidence", "strengths", "weaknesses", "questions"]

/-- The depth-0 render of `c7Note` (used to witness the amended C7). -/
def c7Out0 : String :=
  match format_note c7Note false 0 with
  | Except.ok s => s
  | Except.error _ => ""

/-- The depth-1 render of `c7Note` (used to witness the amended C7). -/
def c7Out1 : String :=
  match format_note c7Note false 1 with
  | Except.ok s => s
  | Except.error _ => ""

/-- A concrete structure-preserving mangling: replace the content of
every note replying to `"ZZZ"` (the orphan), keep all other notes. -/
def orphanMangle (n : Note) : Note :=
  match n with
  | .mk i sg cd rt ct dt =>
    if rt == Option.some "ZZZ" then
      Note.mk i sg cd rt (Option.some [("comment", PyVal.str "CHANGED")]) dt
    else Note.mk i sg cd rt ct dt

-- THEOREMS

/-- `leadsWith` of a nonempty pattern fails on the empty text. -/
theorem leadsWith_nil_of_ne {p : List Char} (h : p ≠ []) :
    leadsWith p [] = false := by
  cases p with
  | nil => exact absurd rfl h
  | cons c p => rfl

/-- A pattern matching at the front occurs. -/
theorem occursIn_of_leadsWith {p s : List Char} (h : leadsWith p s = true) :
    occursIn p s = true := by
  cases s with
  | nil => simpa [occursIn] using h
  | cons c s => simp [occursIn, h]

/-- `leadsWith` is reflexive. -/
theorem leadsWith_refl (p : List Char) : leadsWith p p = true := by
  induction p with
  | nil => rfl
  | cons c p ih => simp [leadsWith, ih]

/-- A front match survives appending on the right. -/
theorem leadsWith_append_right {p s : List Char} (b : List Char)
    (h : leadsWith p s = true) : leadsWith p (s ++ b) = true := by
  induction p generalizing s with
  | nil => rfl
  | cons c p ih =>
    cases s with
    | nil => simp [leadsWith] at h
    | cons x s =>
      simp only [leadsWith, Bool.and_eq_true] at h ⊢
      exact ⟨h.1, ih h.2⟩

/-- Whether a pattern matches at the front of `a ++ c :: b` only depends
on `a` when the separator `c` does not occur in the pattern. -/
theorem leadsWith_append_cons {p : List Char} (a b : List Char) {c : Char}
    (hc : c ∉ p) : leadsWith p (a ++ c :: b) = leadsWith p a := by
  induction p generalizing a with
  | nil => rfl
  | cons d p ih =>
    cases a with
    | nil =>
      have hdc : (d == c) = false := by
        simp only [beq_eq_false_iff_ne]
        intro h
        exact hc (h ▸ List.mem_cons_self d p)
      simp [leadsWith, hdc]
    | cons x a =>
      have hcp : c ∉ p := fun h => hc (List.mem_cons_of_mem d h)
      simp [leadsWith, ih a hcp]

/-- Occurrence in `a ++ c :: b` splits at a separator `c` that does not
occur in the pattern. -/
theorem occursIn_append_cons {p : List Char} (a b : List Char) {c : Char}
    (hc : c ∉ p) :
    occursIn p (a ++ c :: b) = (occursIn p a || occursIn p b) := by
  induction a with
  | nil =>
    cases p with
    | nil => simp [occursIn, leadsWith]
    | cons d p =>
      have hdc : (d == c) = false := by
        simp only [beq_eq_false_iff_ne]
        intro h
        exact hc (h ▸ List.mem_cons_self d p)
      simp [occursIn, leadsWith, hdc]
  | cons x a ih =>
    show occursIn p (x :: (a ++ c :: b)) = (occursIn p (x :: a) || occursIn p b)
    have h1 : leadsWith p (x :: (a ++ c :: b)) = leadsWith p (x :: a) :=
      leadsWith_append_cons (x :: a) b hc
    calc occursIn p (x :: (a ++ c :: b))
        = (leadsWith p (x :: (a ++ c :: b)) || occursIn p (a ++ c :: b)) := rfl
      _ = (leadsWith p (x :: a) || (occursIn p a || occursIn p b)) := by
          rw [h1, ih]
      _ = ((leadsWith p (x :: a) || occursIn p a) || occursIn p b) := by
          rw [Bool.or_assoc]
      _ = (occursIn p (x :: a) || occursIn p b) := rfl

/-- Dropping the pattern's head preserves occurrence. -/
theorem occursIn_cons_pattern {c : Char} {p s : List Char}
    (h : occursIn (c :: p) s = true) : occursIn p s = true := by
  induction s with
  | nil => simp [occursIn, leadsWith] at h
  | cons b s ih =>
    simp only [occursIn, Bool.or_eq_true] at h
    rcases h with h | h
    · simp only [leadsWith, Bool.and_eq_true] at h
      simp [occursIn, occursIn_of_leadsWith h.2]
    · simp [occursIn, ih h]

/-- Occurrence survives prepending. -/
theorem occursIn_append_left {p : List Char} (a : List Char) {b : List Char}
    (h : occursIn p b = true) : occursIn p (a ++ b) = true := by
  induction a with
  | nil => simpa using h
  | cons x a ih => simp [occursIn, ih]

/-- Occurrence survives appending. -/
theorem occursIn_append_right {p a : List Char} (b : List Char)
    (h : occursIn p a = true) : occursIn p (a ++ b) = true := by
  induction a with
  | nil =>
    cases p with
    | nil => cases b with
      | nil => rfl
      | cons x b => simp [occursIn, leadsWith]
    | cons c p => simp [occursIn, leadsWith] at h
  | cons x a ih =>
    simp only [occursIn, Bool.or_eq_true] at h
    rcases h with h | h
    · exact occursIn_of_leadsWith (leadsWith_append_right b h)
    · simp [occursIn, ih h]

/-- The pattern occurs in itself followed by anything. -/
theorem occursIn_self_append (p b : List Char) :
    occursIn p (p ++ b) = true :=
  occursIn_of_leadsWith (leadsWith_append_right b (leadsWith_refl p))

/-- Occurrence inside an infix survives the surrounding context. -/
theorem occursIn_of_infix {p l : List Char} (a b : List Char)
    (h : occursIn p l = true) : occursIn p (a ++ (l ++ b)) = true :=
  occursIn_append_left a (occursIn_append_right b h)

/-- Looking a bucket up after `addChild`: the bucket for `k` gained `n`
at its end, all others are unchanged. -/
theorem childrenGet_addChild (m : List (String × List Note)) (k id : String)
    (n : Note) :
    childrenGet (addChild m k n) id =
      if k = id then childrenGet m id ++ [n] else childrenGet m id := by
  induction m with
  | nil =>
    by_cases h : k = id
    · subst h
      simp [addChild, childrenGet, List.find?]
    · have hb : (k == id) = false := beq_eq_false_iff_ne.mpr h
      simp [addChild, childrenGet, List.find?, hb, h]
  | cons p m ih =>
    obtain ⟨k2, l⟩ := p
    by_cases h2 : k2 = k
    · subst h2
      by_cases h : k2 = id
      · subst h
        simp [addChild, childrenGet, List.find?]
      · have hb : (k2 == id) = false := beq_eq_false_iff_ne.mpr h
        simp [addChild, childrenGet, List.find?, hb, h]
    · simp only [addChild, if_neg h2]
      by_cases h : k2 = id
      · subst h
        have hk : ¬ k = k2 := fun hh => h2 hh.symm
        simp [childrenGet, List.find?, hk]
      · have hb : (k2 == id) = false := beq_eq_false_iff_ne.mpr h
        simp only [childrenGet, List.find?, hb] at ih ⊢
        exact ih

/-- Looking a bucket up after the whole grouping fold: exactly the notes
whose truthy `replyto` equals the key, appended in input order. -/
theorem childrenGet_foldl (notes : List Note)
    (m : List (String × List Note)) (id : String) :
    childrenGet (notes.foldl cmStep m) id =
      childrenGet m id ++
        notes.filter (fun n => truthyStr n.replyto == Option.some id) := by
  induction notes generalizing m with
  | nil => simp
  | cons n ns ih =>
    simp only [List.foldl_cons, List.filter_cons]
    rw [ih]
    cases h : truthyStr n.replyto with
    | none => simp [cmStep, h]
    | some r =>
      simp only [cmStep, h]
      rw [childrenGet_addChild]
      by_cases hr : r = id
      · subst hr
        simp
      · simp [hr]

/-- Sorting every bucket commutes with bucket lookup. -/
theorem childrenGet_mapSort (m : List (String × List Note)) (id : String) :
    childrenGet (m.map (fun p => (p.1, pySort p.2))) id =
      pySort (childrenGet m id) := by
  induction m with
  | nil => rfl
  | cons p m ih =>
    obtain ⟨k, l⟩ := p
    by_cases h : k = id
    · subst h
      simp [childrenGet, List.find?]
    · have hb : (k == id) = false := beq_eq_false_iff_ne.mpr h
      simp only [List.map_cons, childrenGet, List.find?, hb] at ih ⊢
      exact ih

/-- The children map bucket for `id` is the date-sorted list of input
notes whose truthy `replyto` is `id`. -/
theorem build_children_map_get (notes : List Note) (id : String) :
    childrenGet (_build_children_map notes) id =
      pySort (notes.filter (fun n => truthyStr n.replyto == Option.some id)) := by
  unfold _build_children_map
  rw [childrenGet_mapSort, childrenGet_foldl]
  rfl

/-- `mapExcept` over a mapped list. -/
theorem mapExcept_map (f : β → Except String γ) (g : α → β) (l : List α) :
    mapExcept f (l.map g) = mapExcept (fun x => f (g x)) l := by
  induction l with
  | nil => rfl
  | cons x l ih => simp only [List.map_cons, mapExcept, ih]

/-- `mapExcept` only depends on the function's values on members. -/
theorem mapExcept_congr {f f2 : α → Except String β} {l : List α}
    (h : ∀ x ∈ l, f x = f2 x) : mapExcept f l = mapExcept f2 l := by
  induction l with
  | nil => rfl
  | cons x l ih =>
    simp only [mapExcept]
    rw [h x (List.mem_cons_self x l),
      ih (fun y hy => h y (List.mem_cons_of_mem x hy))]

/-- `orderedInsert` commutes with a key-preserving map. -/
theorem orderedInsert_map (g : Note → Note)
    (hg : ∀ n, noteKey (g n) = noteKey n) (a : Note) (l : List Note) :
    List.orderedInsert noteLE (g a) (l.map g)
      = (List.orderedInsert noteLE a l).map g := by
  induction l with
  | nil => rfl
  | cons b l ih =>
    by_cases h : noteLE a b
    · have h2 : noteLE (g a) (g b) := by
        show noteKey (g a) ≤ noteKey (g b)
        rw [hg, hg]
        exact h
      simp [List.orderedInsert, h, h2]
    · have h2 : ¬ noteLE (g a) (g b) := by
        show ¬ noteKey (g a) ≤ noteKey (g b)
        rw [hg, hg]
        exact h
      simp [List.orderedInsert, h, h2, ih]

/-- The Python stable sort commutes with a key-preserving map. -/
theorem pySort_map (g : Note → Note) (hg : ∀ n, noteKey (g n) = noteKey n)
    (l : List Note) : pySort (l.map g) = (pySort l).map g := by
  induction l with
  | nil => rfl
  | cons a l ih =>
    show List.orderedInsert noteLE (g a) (List.insertionSort noteLE (l.map g))
      = (List.orderedInsert noteLE a (List.insertionSort noteLE l)).map g
    have hins : List.insertionSort noteLE (l.map g)
        = (List.insertionSort noteLE l).map g := ih
    rw [hins, orderedInsert_map g hg]

/-- `addChild` commutes with `cmMap`. -/
theorem addChild_cmMap (g : Note → Note) (m : List (String × List Note))
    (k : String) (n : Note) :
    addChild (cmMap g m) k (g n) = cmMap g (addChild m k n) := by
  induction m with
  | nil => rfl
  | cons p m ih =>
    obtain ⟨k2, l⟩ := p
    by_cases h : k2 = k
    · subst h
      simp [addChild, cmMap]
    · simp only [cmMap, List.map_cons, addChild, if_neg h]
      simp only [cmMap] at ih
      rw [ih]

/-- The grouping fold commutes with a `replyto`-preserving map. -/
theorem foldl_cmStep_map (g : Note → Note)
    (hrt : ∀ n, (g n).replyto = n.replyto) (notes : List Note) :
    ∀ m, (notes.map g).foldl cmStep (cmMap g m)
      = cmMap g (notes.foldl cmStep m) := by
  induction notes with
  | nil => intro m; rfl
  | cons n ns ih =>
    intro m
    simp only [List.map_cons, List.foldl_cons]
    have hstep : cmStep (cmMap g m) (g n) = cmMap g (cmStep m n) := by
      unfold cmStep
      rw [hrt]
      cases truthyStr n.replyto with
      | none => rfl
      | some r => exact addChild_cmMap g m r n
    rw [hstep]
    exact ih _

/-- Sorting all buckets commutes with `cmMap` (keys preserved). -/
theorem cmMap_mapSort (g : Note → Note)
    (hkey : ∀ n, noteKey (g n) = noteKey n) (m : List (String × List Note)) :
    (cmMap g m).map (fun p => (p.1, pySort p.2))
      = cmMap g (m.map (fun p => (p.1, pySort p.2))) := by
  induction m with
  | nil => rfl
  | cons p m ih =>
    obtain ⟨k, l⟩ := p
    simp only [cmMap, List.map_cons] at ih ⊢
    rw [pySort_map g hkey, ih]

/-- `_build_children_map` commutes with a map preserving `replyto` and
the sort key. -/
theorem bcm_map (g : Note → Note) (hrt : ∀ n, (g n).replyto = n.replyto)
    (hkey : ∀ n, noteKey (g n) = noteKey n) (notes : List Note) :
    _build_children_map (notes.map g) = cmMap g (_build_children_map notes) := by
  unfold _build_children_map
  have h0 : (cmMap g [] : List (String × List Note)) = [] := rfl
  rw [← h0, foldl_cmStep_map g hrt, cmMap_mapSort g hkey, h0]

/-- Bucket lookup after `cmMap`. -/
theorem childrenGet_cmMap (g : Note → Note) (m : List (String × List Note))
    (k : String) : childrenGet (cmMap g m) k = (childrenGet m k).map g := by
  induction m with
  | nil => rfl
  | cons p m ih =>
    obtain ⟨k2, l⟩ := p
    by_cases h : k2 = k
    · subst h
      simp [childrenGet, cmMap, List.find?]
    · have hb : (k2 == k) = false := beq_eq_false_iff_ne.mpr h
      simp only [cmMap, List.map_cons, childrenGet, List.find?, hb] at ih ⊢
      exact ih

/-- The root search commutes with a `replyto`-preserving map. -/
theorem find_root_map (g : Note → Note)
    (hrt : ∀ n, (g n).replyto = n.replyto) (l : List Note) :
    (l.map g).find? (fun n => (truthyStr n.replyto).isNone)
      = Option.map g (l.find? (fun n => (truthyStr n.replyto).isNone)) := by
  induction l with
  | nil => rfl
  | cons n l ih =>
    simp only [List.map_cons, List.find?, hrt]
    cases (truthyStr n.replyto).isNone with
    | true => rfl
    | false => exact ih

/-- A details-only transformation preserves the sort key. -/
theorem noteKey_of_detailsOnly {g : Note → Note} (hg : detailsOnly g)
    (n : Note) : noteKey (g n) = noteKey n := by
  unfold noteKey
  rw [(hg n).2.2.1]

/-- `format_note` without replies never reads `details`, so a
details-only transformation cannot change its output. -/
theorem format_note_false_map {g : Note → Note} (hg : detailsOnly g)
    (n : Note) (level : Nat) :
    format_note (g n) false level = format_note n false level := by
  obtain ⟨hid, hsg, hcd, hrt, hct⟩ := hg n
  cases hgn : g n with
  | mk i2 sg2 cd2 rt2 ct2 dt2 =>
    cases n with
    | mk i sg cd rt ct dt =>
      rw [hgn] at hid hsg hcd hct
      simp only [Note.id, Note.signatures, Note.cdate, Note.content]
        at hid hsg hcd hct
      subst hid
      subst hsg
      subst hcd
      subst hct
      rfl

/-- `_format_note_recursive` reads only `id`, `signatures`, `cdate`,
`content` and the children map, so it commutes with applying a
details-only transformation to the note and to the map's buckets. -/
theorem fnr_map {g : Note → Note} (hg : detailsOnly g) :
    ∀ (fuel : Nat) (n : Note) (cm : List (String × List Note)) (level : Nat),
      _format_note_recursive fuel (g n) (cmMap g cm) level
        = _format_note_recursive fuel n cm level := by
  intro fuel
  induction fuel with
  | zero => intro n cm level; rfl
  | succ fuel ih =>
    intro n cm level
    obtain ⟨hid, hsg, hcd, hrt, hct⟩ := hg n
    cases hgn : g n with
    | mk i2 sg2 cd2 rt2 ct2 dt2 =>
      cases n with
      | mk i sg cd rt ct dt =>
        rw [hgn] at hid hsg hcd hct
        simp only [Note.id, Note.signatures, Note.cdate, Note.content]
          at hid hsg hcd hct
        subst hid
        subst hsg
        subst hcd
        subst hct
        show (do
          let core ← noteCoreLines sg2 cd2 ct2 level
          let indent := strRepeatN "  " level
          let replies :=
            match truthyStr i2 with
            | Option.some nid => childrenGet (cmMap g cm) nid
            | Option.none => []
          let replyLines ←
            if replies.isEmpty then pure ([] : List String)
            else do
              let rs ← mapExcept
                (fun r => _format_note_recursive fuel r (cmMap g cm) (level + 1))
                replies
              pure ([indent ++ "### Replies:", ""] ++ rs)
          Except.ok (pyJoinNl (core ++ replyLines ++ [indent ++ "---", ""]))) =
          (do
          let core ← noteCoreLines sg2 cd2 ct2 level
          let indent := strRepeatN "  " level
          let replies :=
            match truthyStr i2 with
            | Option.some nid => childrenGet cm nid
            | Option.none => []
          let replyLines ←
            if replies.isEmpty then pure ([] : List String)
            else do
              let rs ← mapExcept
                (fun r => _format_note_recursive fuel r cm (level + 1))
                replies
              pure ([indent ++ "### Replies:", ""] ++ rs)
          Except.ok (pyJoinNl (core ++ replyLines ++ [indent ++ "---", ""])))
        cases noteCoreLines sg2 cd2 ct2 level with
        | error e => rfl
        | ok core =>
          show (do
            let replies :=
              match truthyStr i2 with
              | Option.some nid => childrenGet (cmMap g cm) nid
              | Option.none => []
            let replyLines ←
              if replies.isEmpty then pure ([] : List String)
              else do
                let rs ← mapExcept
                  (fun r => _format_note_recursive fuel r (cmMap g cm) (level + 1))
                  replies
                pure ([strRepeatN "  " level ++ "### Replies:", ""] ++ rs)
            Except.ok (pyJoinNl (core ++ replyLines ++
              [strRepeatN "  " level ++ "---", ""]))) = _
          cases htr : truthyStr i2 with
          | none => rfl
          | some nid =>
            show (do
              let replies := childrenGet (cmMap g cm) nid
              let replyLines ←
                if replies.isEmpty then pure ([] : List String)
                else do
                  let rs ← mapExcept
                    (fun r => _format_note_recursive fuel r (cmMap g cm) (level + 1))
                    replies
                  pure ([strRepeatN "  " level ++ "### Replies:", ""] ++ rs)
              Except.ok (pyJoinNl (core ++ replyLines ++
                [strRepeatN "  " level ++ "---", ""]))) =
              (do
              let replies := childrenGet cm nid
              let replyLines ←
                if replies.isEmpty then pure ([] : List String)
                else do
                  let rs ← mapExcept
                    (fun r => _format_note_recursive fuel r cm (level + 1))
                    replies
                  pure ([strRepeatN "  " level ++ "### Replies:", ""] ++ rs)
              Except.ok (pyJoinNl (core ++ replyLines ++
                [strRepeatN "  " level ++ "---", ""])))
            rw [childrenGet_cmMap]
            cases hrep : childrenGet cm nid with
            | nil => rfl
            | cons r rs =>
              have hmap : mapExcept
                  (fun r => _format_note_recursive fuel r (cmMap g cm) (level + 1))
                  ((r :: rs).map g)
                  = mapExcept
                    (fun r => _format_note_recursive fuel r cm (level + 1))
                    (r :: rs) := by
                rw [mapExcept_map]
                exact mapExcept_congr (fun x _ => ih x cm (level + 1))
              simp only [List.map_cons] at hmap
              simp only [List.map_cons, List.isEmpty_cons, hmap]

/-- C4: the whole-thread render never reads any note's advisory
`details["directReplies"]`: replacing every note's `details` by anything
whatsoever (per note) leaves the output byte-for-byte unchanged. -/
theorem claim_C4 (notes : List Note) (t : String)
    (f : Note → Option (List Note)) :
    format_all_notes (notes.map (fun n => setDetails n (f n))) t
      = format_all_notes notes t := by
  have hg : detailsOnly (fun n => setDetails n (f n)) := by
    intro n
    cases n with
    | mk i sg cd rt ct dt => exact ⟨rfl, rfl, rfl, rfl, rfl⟩
  have hrt : ∀ n, ((fun n => setDetails n (f n)) n).replyto = n.replyto :=
    fun n => (hg n).2.2.2.1
  have hkey := noteKey_of_detailsOnly hg
  show (do
    let subLines ←
      match (pySort (notes.map (fun n => setDetails n (f n)))).find?
          (fun (n : Note) => (truthyStr n.replyto).isNone) with
      | Option.some ms => do
        let md ← format_note ms false 0
        pure ["# Main Submission", "", md, ""]
      | Option.none => pure ([] : List String)
    let commentLines ← mapExcept
      (fun n => _format_note_recursive
        ((notes.map (fun n => setDetails n (f n))).length + 1) n
        (_build_children_map (pySort (notes.map (fun n => setDetails n (f n))))) 0)
      (match (pySort (notes.map (fun n => setDetails n (f n)))).find?
          (fun (n : Note) => (truthyStr n.replyto).isNone) with
       | Option.some ms =>
         match truthyStr ms.id with
         | Option.some mid =>
           childrenGet (_build_children_map
             (pySort (notes.map (fun n => setDetails n (f n))))) mid
         | Option.none => []
       | Option.none => [])
    Except.ok (pyJoinNl (["# " ++ t, "",
      "**Total Comments:** " ++
        toString (notes.map (fun n => setDetails n (f n))).length,
      "", "---", ""] ++ subLines ++ ["# Comments and Reviews", ""] ++
      commentLines))) =
    (do
    let subLines ←
      match (pySort notes).find?
          (fun (n : Note) => (truthyStr n.replyto).isNone) with
      | Option.some ms => do
        let md ← format_note ms false 0
        pure ["# Main Submission", "", md, ""]
      | Option.none => pure ([] : List String)
    let commentLines ← mapExcept
      (fun n => _format_note_recursive (notes.length + 1) n
        (_build_children_map (pySort notes)) 0)
      (match (pySort notes).find?
          (fun (n : Note) => (truthyStr n.replyto).isNone) with
       | Option.some ms =>
         match truthyStr ms.id with
         | Option.some mid =>
           childrenGet (_build_children_map (pySort notes)) mid
         | Option.none => []
       | Option.none => [])
    Except.ok (pyJoinNl (["# " ++ t, "",
      "**Total Comments:** " ++ toString notes.length,
      "", "---", ""] ++ subLines ++ ["# Comments and Reviews", ""] ++
      commentLines)))
  rw [List.length_map, pySort_map _ hkey, bcm_map _ hrt hkey,
    find_root_map _ hrt]
  cases hfind : (pySort notes).find?
      (fun (n : Note) => (truthyStr n.replyto).isNone) with
  | none => rfl
  | some ms =>
    rw [show Option.map (fun n => setDetails n (f n)) (Option.some ms)
      = Option.some (setDetails ms (f ms)) from rfl]
    simp only []
    rw [format_note_false_map hg]
    cases hms : format_note ms false 0 with
    | error e => rfl
    | ok md =>
      rw [show (setDetails ms (f ms)).id = ms.id from (hg ms).1]
      cases hti : truthyStr ms.id with
      | none => rfl
      | some mid =>
        simp only []
        rw [childrenGet_cmMap, mapExcept_map]
        rw [mapExcept_congr (fun x _ => fnr_map hg (notes.length + 1) x
          (_build_children_map (pySort notes)) 0)]

/-- Every note of `ns` is visited. -/
theorem visitedFrom_self {fuel : Nat} {cm : List (String × List Note)}
    {ns : List Note} {r : Note} (hr : r ∈ ns) :
    r ∈ visitedFrom (Nat.succ fuel) cm ns :=
  List.mem_flatten.mpr ⟨r :: visitedFrom fuel cm (childrenOf cm r),
    List.mem_map.mpr ⟨r, hr, rfl⟩, List.mem_cons_self _ _⟩

/-- Notes visited below a member are visited. -/
theorem visitedFrom_child {fuel : Nat} {cm : List (String × List Note)}
    {ns : List Note} {r m : Note} (hr : r ∈ ns)
    (hm : m ∈ visitedFrom fuel cm (childrenOf cm r)) :
    m ∈ visitedFrom (Nat.succ fuel) cm ns :=
  List.mem_flatten.mpr ⟨r :: visitedFrom fuel cm (childrenOf cm r),
    List.mem_map.mpr ⟨r, hr, rfl⟩, List.mem_cons_of_mem _ hm⟩

/-- The recursive render of a list of notes is unchanged by a map `g`
that fixes every visited note (the map's buckets being `g`-mapped as
well). -/
theorem fnr_cond_list {g : Note → Note} :
    ∀ (fuel : Nat) (cm : List (String × List Note)) (level : Nat)
      (ns : List Note),
      (∀ m ∈ visitedFrom fuel cm ns, g m = m) →
      mapExcept
          (fun r => _format_note_recursive fuel (g r) (cmMap g cm) level) ns
        = mapExcept (fun r => _format_note_recursive fuel r cm level) ns := by
  intro fuel
  induction fuel with
  | zero =>
    intro cm level ns _
    exact mapExcept_congr (fun x _ => rfl)
  | succ fuel ih =>
    intro cm level ns hvis
    apply mapExcept_congr
    intro r hr
    have hgr : g r = r := hvis r (visitedFrom_self hr)
    rw [hgr]
    cases r with
    | mk i sg cd rt ct dt =>
      show (do
        let core ← noteCoreLines sg cd ct level
        let indent := strRepeatN "  " level
        let replies :=
          match truthyStr i with
          | Option.some nid => childrenGet (cmMap g cm) nid
          | Option.none => []
        let replyLines ←
          if replies.isEmpty then pure ([] : List String)
          else do
            let rs ← mapExcept
              (fun x => _format_note_recursive fuel x (cmMap g cm) (level + 1))
              replies
            pure ([indent ++ "### Replies:", ""] ++ rs)
        Except.ok (pyJoinNl (core ++ replyLines ++ [indent ++ "---", ""]))) =
        (do
        let core ← noteCoreLines sg cd ct level
        let indent := strRepeatN "  " level
        let replies :=
          match truthyStr i with
          | Option.some nid => childrenGet cm nid
          | Option.none => []
        let replyLines ←
          if replies.isEmpty then pure ([] : List String)
          else do
            let rs ← mapExcept
              (fun x => _format_note_recursive fuel x cm (level + 1))
              replies
            pure ([indent ++ "### Replies:", ""] ++ rs)
        Except.ok (pyJoinNl (core ++ replyLines ++ [indent ++ "---", ""])))
      cases noteCoreLines sg cd ct level with
      | error e => rfl
      | ok core =>
        show (do
          let replies :=
            match truthyStr i with
            | Option.some nid => childrenGet (cmMap g cm) nid
            | Option.none => []
          let replyLines ←
            if replies.isEmpty then pure ([] : List String)
            else do
              let rs ← mapExcept
                (fun x => _format_note_recursive fuel x (cmMap g cm) (level + 1))
                replies
              pure ([strRepeatN "  " level ++ "### Replies:", ""] ++ rs)
          Except.ok (pyJoinNl (core ++ replyLines ++
            [strRepeatN "  " level ++ "---", ""]))) = _
        cases htr : truthyStr i with
        | none => rfl
        | some nid =>
          show (do
            let replies := childrenGet (cmMap g cm) nid
            let replyLines ←
              if replies.isEmpty then pure ([] : List String)
              else do
                let rs ← mapExcept
                  (fun x => _format_note_recursive fuel x (cmMap g cm) (level + 1))
                  replies
                pure ([strRepeatN "  " level ++ "### Replies:", ""] ++ rs)
            Except.ok (pyJoinNl (core ++ replyLines ++
              [strRepeatN "  " level ++ "---", ""]))) =
            (do
            let replies := childrenGet cm nid
            let replyLines ←
              if replies.isEmpty then pure ([] : List String)
              else do
                let rs ← mapExcept
                  (fun x => _format_note_recursive fuel x cm (level + 1))
                  replies
                pure ([strRepeatN "  " level ++ "### Replies:", ""] ++ rs)
            Except.ok (pyJoinNl (core ++ replyLines ++
              [strRepeatN "  " level ++ "---", ""])))
          rw [childrenGet_cmMap]
          have hco : childrenOf cm (Note.mk i sg cd rt ct dt)
              = childrenGet cm nid := by
            unfold childrenOf
            rw [show (Note.mk i sg cd rt ct dt).id = i from rfl, htr]
          cases hrep : childrenGet cm nid with
          | nil => rfl
          | cons c cs =>
            have hcond : ∀ m ∈ visitedFrom fuel cm (c :: cs), g m = m := by
              intro m hm
              refine hvis m (visitedFrom_child hr ?_)
              rw [hco, hrep]
              exact hm
            have hmap : mapExcept
                (fun x => _format_note_recursive fuel x (cmMap g cm) (level + 1))
                ((c :: cs).map g)
                = mapExcept
                  (fun x => _format_note_recursive fuel x cm (level + 1))
                  (c :: cs) := by
              rw [mapExcept_map]
              exact ih cm (level + 1) (c :: cs) hcond
            simp only [List.map_cons] at hmap
            simp only [List.map_cons, List.isEmpty_cons, hmap]

/-- A structure-preserving transformation preserves the sort key. -/
theorem noteKey_of_structPreserving {g : Note → Note}
    (hg : structPreserving g) (n : Note) : noteKey (g n) = noteKey n := by
  unfold noteKey
  rw [(hg n).2.2]

/-- C10: a note that is neither the chosen root nor reachable from it
through the children map contributes nothing to the whole-thread render
(mangling the payload of every unreachable note leaves the output
unchanged), yet it is still counted: in the concrete three-note input
with an orphan (its `replyto` names the absent id "ZZZ"), the orphan's
text is absent from the output while the total line says 3 and only two
comment blocks are rendered. -/
theorem claim_C10 :
    (∀ (notes : List Note) (t : String) (g : Note → Note),
      structPreserving g → (∀ n ∈ reachSet notes, g n = n) →
      format_all_notes (notes.map g) t = format_all_notes notes t) ∧
    (∃ out, format_all_notes [noteS, noteC1, orphanNote] "Doc"
        = Except.ok out ∧
      strOccurs "ORPHANTEXT" out = false ∧
      strOccurs "**Total Comments:** 3" out = true ∧
      strCount "## Comment by" out = 2) := by
  constructor
  · intro notes t g hg hreach
    have hrt : ∀ n, (g n).replyto = n.replyto := fun n => (hg n).2.1
    have hkey := noteKey_of_structPreserving hg
    show (do
      let subLines ←
        match (pySort (notes.map g)).find?
            (fun (n : Note) => (truthyStr n.replyto).isNone) with
        | Option.some ms => do
          let md ← format_note ms false 0
          pure ["# Main Submission", "", md, ""]
        | Option.none => pure ([] : List String)
      let commentLines ← mapExcept
        (fun n => _format_note_recursive ((notes.map g).length + 1) n
          (_build_children_map (pySort (notes.map g))) 0)
        (match (pySort (notes.map g)).find?
            (fun (n : Note) => (truthyStr n.replyto).isNone) with
         | Option.some ms =>
           match truthyStr ms.id with
           | Option.some mid =>
             childrenGet (_build_children_map (pySort (notes.map g))) mid
           | Option.none => []
         | Option.none => [])
      Except.ok (pyJoinNl (["# " ++ t, "",
        "**Total Comments:** " ++ toString (notes.map g).length,
        "", "---", ""] ++ subLines ++ ["# Comments and Reviews", ""] ++
        commentLines))) =
      (do
      let subLines ←
        match (pySort notes).find?
            (fun (n : Note) => (truthyStr n.replyto).isNone) with
        | Option.some ms => do
          let md ← format_note ms false 0
          pure ["# Main Submission", "", md, ""]
        | Option.none => pure ([] : List String)
      let commentLines ← mapExcept
        (fun n => _format_note_recursive (notes.length + 1) n
          (_build_children_map (pySort notes)) 0)
        (match (pySort notes).find?
            (fun (n : Note) => (truthyStr n.replyto).isNone) with
         | Option.some ms =>
           match truthyStr ms.id with
           | Option.some mid =>
             childrenGet (_build_children_map (pySort notes)) mid
           | Option.none => []
         | Option.none => [])
      Except.ok (pyJoinNl (["# " ++ t, "",
        "**Total Comments:** " ++ toString notes.length,
        "", "---", ""] ++ subLines ++ ["# Comments and Reviews", ""] ++
        commentLines)))
    rw [List.length_map, pySort_map _ hkey, bcm_map _ hrt hkey,
      find_root_map _ hrt]
    cases hfind : (pySort notes).find?
        (fun (n : Note) => (truthyStr n.replyto).isNone) with
    | none => rfl
    | some ms =>
      have hreachEq : reachSet notes = ms :: visitedFrom (notes.length + 1)
          (_build_children_map (pySort notes))
          (childrenOf (_build_children_map (pySort notes)) ms) := by
        show (match (pySort notes).find?
            (fun n => (truthyStr n.replyto).isNone) with
          | Option.some ms => ms :: visitedFrom (notes.length + 1)
              (_build_children_map (pySort notes))
              (childrenOf (_build_children_map (pySort notes)) ms)
          | Option.none => []) = _
        rw [hfind]
      have hgms : g ms = ms := by
        apply hreach
        rw [hreachEq]
        exact List.mem_cons_self _ _
      rw [show Option.map g (Option.some ms) = Option.some (g ms) from rfl,
        hgms]
      simp only []
      cases hms : format_note ms false 0 with
      | error e => rfl
      | ok md =>
        cases hti : truthyStr ms.id with
        | none => rfl
        | some mid =>
          simp only []
          rw [childrenGet_cmMap, mapExcept_map]
          have hcond : ∀ m ∈ visitedFrom (notes.length + 1)
              (_build_children_map (pySort notes))
              (childrenGet (_build_children_map (pySort notes)) mid),
              g m = m := by
            intro m hm
            apply hreach
            rw [hreachEq]
            apply List.mem_cons_of_mem
            have hco : childrenOf (_build_children_map (pySort notes)) ms
                = childrenGet (_build_children_map (pySort notes)) mid := by
              unfold childrenOf
              rw [hti]
            rw [hco]
            exact hm
          have := fnr_cond_list (g := g) (notes.length + 1)
            (_build_children_map (pySort notes)) 0
            (childrenGet (_build_children_map (pySort notes)) mid) hcond
          rw [mapExcept_congr (fun x _ => rfl), this]
  · refine ⟨_, rfl, ?_, ?_, ?_⟩
    · decide
    · decide
    · decide

/-- Witness for C10's noninterference half: mangling the orphan's
content in the concrete three-note input leaves the render unchanged. -/
theorem claim_C10_witness :
    format_all_notes ([noteS, noteC1, orphanNote].map orphanMangle) "Doc"
      = format_all_notes [noteS, noteC1, orphanNote] "Doc" :=
  claim_C10.1 [noteS, noteC1, orphanNote] "Doc" orphanMangle
    (by
      intro n
      cases n with
      | mk i sg cd rt ct dt =>
        unfold orphanMangle
        by_cases h : rt == Option.some "ZZZ" <;> simp [h, Note.id,
          Note.replyto, Note.cdate])
    (by
      intro n hn
      rw [show reachSet [noteS, noteC1, orphanNote] = [noteS, noteC1]
        from rfl] at hn
      simp only [List.mem_cons, List.not_mem_nil, or_false] at hn
      rcases hn with rfl | rfl
      · rfl
      · rfl)

/-- C5: the bucket for each id in the per-render children map holds
exactly the input notes whose truthy `replyto` equals that id (as a
permutation of the filtered input), ordered ascending by
`cdate`-or-zero; every note in a bucket has that id as its truthy
`replyto`, so parent-less notes appear in no bucket. -/
theorem claim_C5 (notes : List Note) (id : String) :
    List.Perm (childrenGet (_build_children_map notes) id)
        (notes.filter (fun n => truthyStr n.replyto == Option.some id)) ∧
    List.Sorted noteLE (childrenGet (_build_children_map notes) id) ∧
    (∀ n, n ∈ childrenGet (_build_children_map notes) id →
      truthyStr n.replyto = Option.some id) := by
  have hkey := build_children_map_get notes id
  refine ⟨?_, ?_, ?_⟩
  · rw [hkey]
    exact List.perm_insertionSort noteLE _
  · rw [hkey]
    exact List.sorted_insertionSort noteLE _
  · intro n hn
    rw [hkey] at hn
    have hmem : n ∈ notes.filter
        (fun n => truthyStr n.replyto == Option.some id) :=
      (List.perm_insertionSort noteLE _).mem_iff.mp hn
    have := List.of_mem_filter hmem
    exact eq_of_beq this

/-- Witness for C5 on the four-node example thread at id `"S"`. -/
theorem claim_C5_witness :
    List.Perm (childrenGet (_build_children_map [noteS, noteC1, noteC2, noteG1]) "S")
        ([noteS, noteC1, noteC2, noteG1].filter
          (fun n => truthyStr n.replyto == Option.some "S")) ∧
    List.Sorted noteLE
      (childrenGet (_build_children_map [noteS, noteC1, noteC2, noteG1]) "S") ∧
    (∀ n, n ∈ childrenGet (_build_children_map [noteS, noteC1, noteC2, noteG1]) "S" →
      truthyStr n.replyto = Option.some "S") :=
  claim_C5 [noteS, noteC1, noteC2, noteG1] "S"

/-- `splitNl` never returns the empty list. -/
theorem splitNl_ne_nil (s : List Char) : splitNl s ≠ [] := by
  induction s with
  | nil => simp [splitNl]
  | cons c rest ih =>
    by_cases h : c = '\n'
    · simp [splitNl, h]
    · simp only [splitNl, if_neg h]
      cases hs : splitNl rest with
      | nil => simp
      | cons p ps => simp

/-- The first piece of `splitNl s` is a prefix of `s`. -/
theorem splitNl_head_front :
    ∀ (s p0 : List Char) (ps : List (List Char)),
      splitNl s = p0 :: ps → ∃ b, s = p0 ++ b := by
  intro s
  induction s with
  | nil =>
    intro p0 ps h
    simp [splitNl] at h
    exact ⟨[], by simp [h.1]⟩
  | cons c rest ih =>
    intro p0 ps h
    by_cases hc : c = '\n'
    · simp [splitNl, hc] at h
      exact ⟨'\n' :: rest, by simp [← h.1, hc]⟩
    · simp only [splitNl, if_neg hc] at h
      cases hs : splitNl rest with
      | nil => exact absurd hs (splitNl_ne_nil rest)
      | cons q qs =>
        rw [hs] at h
        have h2 : (c :: q) :: qs = p0 :: ps := h
        obtain ⟨b, hb⟩ := ih q qs hs
        refine ⟨b, ?_⟩
        injection h2 with h3 h4
        rw [← h3, hb]
        rfl

/-- Every piece of `splitNl s` occurs contiguously inside `s`. -/
theorem splitNl_decomp :
    ∀ (s piece : List Char), piece ∈ splitNl s →
      ∃ a b, s = a ++ (piece ++ b) := by
  intro s
  induction s with
  | nil =>
    intro piece h
    simp [splitNl] at h
    exact ⟨[], [], by simp [h]⟩
  | cons c rest ih =>
    intro piece h
    by_cases hc : c = '\n'
    · simp only [splitNl, if_pos hc] at h
      rcases List.mem_cons.mp h with h | h
      · exact ⟨[], c :: rest, by simp [h]⟩
      · obtain ⟨a, b, hab⟩ := ih piece h
        exact ⟨c :: a, b, by simp [hab]⟩
    · simp only [splitNl, if_neg hc] at h
      cases hs : splitNl rest with
      | nil => exact absurd hs (splitNl_ne_nil rest)
      | cons q qs =>
        rw [hs] at h
        have h2 : piece ∈ (c :: q) :: qs := h
        rcases List.mem_cons.mp h2 with h | h
        · obtain ⟨b, hb⟩ := splitNl_head_front rest q qs hs
          refine ⟨[], b, ?_⟩
          rw [h, hb]
          rfl
        · obtain ⟨a, b, hab⟩ := ih piece (hs ▸ List.mem_cons_of_mem q h)
          exact ⟨c :: a, b, by simp [hab]⟩

/-- If no line contains the (nonempty, newline-free) pattern, neither
does their newline join. -/
theorem occursIn_pyJoinNl_false {p : List Char} (hne : p ≠ [])
    (hnl : '\n' ∉ p) :
    ∀ ls : List String, (∀ l ∈ ls, occursIn p l.data = false) →
      occursIn p (pyJoinNl ls).data = false := by
  intro ls
  induction ls with
  | nil =>
    intro h
    show leadsWith p [] = false
    exact leadsWith_nil_of_ne hne
  | cons l ls ih =>
    intro h
    cases ls with
    | nil =>
      show occursIn p l.data = false
      exact h l (List.mem_cons_self l [])
    | cons l2 ls2 =>
      show occursIn p ((l ++ "\n" ++ pyJoinNl (l2 :: ls2))).data = false
      have hdata : ((l ++ "\n" ++ pyJoinNl (l2 :: ls2))).data
          = l.data ++ '\n' :: (pyJoinNl (l2 :: ls2)).data := by
        simp only [String.data_append, List.append_assoc, List.singleton_append]
      rw [hdata, occursIn_append_cons _ _ hnl]
      rw [h l (List.mem_cons_self l _),
        ih (fun x hx => h x (List.mem_cons_of_mem l hx))]
      rfl

/-- A pattern occurring in a member line occurs in the newline join. -/
theorem occursIn_pyJoinNl_of_mem {p : List Char} {l : String}
    {ls : List String} (hm : l ∈ ls) (h : occursIn p l.data = true) :
    occursIn p (pyJoinNl ls).data = true := by
  induction ls with
  | nil => exact absurd hm (List.not_mem_nil l)
  | cons x ls ih =>
    cases ls with
    | nil =>
      have : l = x := by simpa using hm
      subst this
      exact h
    | cons x2 ls2 =>
      have hdata : ((x ++ "\n" ++ pyJoinNl (x2 :: ls2))).data
          = x.data ++ '\n' :: (pyJoinNl (x2 :: ls2)).data := by
        simp only [String.data_append, List.append_assoc, List.singleton_append]
      show occursIn p ((x ++ "\n" ++ pyJoinNl (x2 :: ls2))).data = true
      rw [hdata]
      rcases List.mem_cons.mp hm with hl | hl
      · subst hl
        exact occursIn_append_right _ h
      · have hrest : occursIn p (pyJoinNl (x2 :: ls2)).data = true := ih hl
        have hcons : occursIn p ('\n' :: (pyJoinNl (x2 :: ls2)).data) = true := by
          show (leadsWith p ('\n' :: (pyJoinNl (x2 :: ls2)).data) ||
            occursIn p (pyJoinNl (x2 :: ls2)).data) = true
          rw [hrest]
          simp
        exact occursIn_append_left _ hcons

/-- A `label ++ ' ' :: value` line is clean when the label and the value
are (the pattern contains no space, so it cannot straddle them). -/
theorem occursIn_label_value {p lab v : List Char} (hsp : ' ' ∉ p)
    (hlab : occursIn p lab = false) (hv : occursIn p v = false) :
    occursIn p (lab ++ ' ' :: v) = false := by
  rw [occursIn_append_cons _ _ hsp, hlab, hv]
  rfl

/-- Lines emitted for one `comment/review/summary/response` field at
indent `""` never contain a pattern absent from the label and from the
extracted value. -/
theorem mainFieldLines_clean {p : List Char} (hne : p ≠ [])
    (entries : List (String × PyVal)) (level : Nat) (fname : String)
    (hlab : occursIn p ("**" ++ pyTitle fname ++ ":**").data = false)
    (hval : occursIn p
      (displayValue (extract_value (dictGet entries fname))).data = false) :
    ∀ ls, mainFieldLines entries "" level fname = Except.ok ls →
      ∀ l ∈ ls, occursIn p l.data = false := by
  intro ls hls l hl
  unfold mainFieldLines at hls
  cases hd : dictHas entries fname with
  | false =>
    rw [hd] at hls
    simp only [Bool.false_eq_true, if_false] at hls
    have h2 : ([] : List String) = ls := by injection hls
    subst h2
    exact absurd hl (List.not_mem_nil l)
  | true =>
    rw [hd] at hls
    simp only [if_true] at hls
    cases hfv : extract_value (dictGet entries fname) with
    | str s =>
      rw [hfv] at hls
      have hvs : occursIn p s.data = false := by
        rw [hfv] at hval
        exact hval
      by_cases hs : s = ""
      · subst hs
        simp only [pyTruthy] at hls
        have h2 : ([] : List String) = ls := by injection hls
        subst h2
        exact absurd hl (List.not_mem_nil l)
      · have htr : pyTruthy (PyVal.str s) = true := by
          simp [pyTruthy, hs]
        rw [htr] at hls
        simp only [if_true] at hls
        have h2 : (["" ++ "**" ++ pyTitle fname ++ ":**", ""] ++
            (splitNlStr s).map (fun line => "" ++ line) ++ [""]) = ls := by
          injection hls
        subst h2
        simp only [List.mem_append, List.mem_cons, List.mem_map,
          List.not_mem_nil, or_false] at hl
        rcases hl with ((hl | hl) | ⟨piece, hpm, hpl⟩) | hl
        · subst hl
          exact hlab
        · subst hl
          exact leadsWith_nil_of_ne hne
        · subst hpl
          obtain ⟨pl, hplm, hplk⟩ := List.mem_map.mp hpm
          subst hplk
          have hdata : ("" ++ String.mk pl).data = pl := by
            simp [String.data_append]
          rw [hdata]
          cases hocc : occursIn p pl with
          | false => rfl
          | true =>
            obtain ⟨a, b2, hab⟩ := splitNl_decomp s.data pl hplm
            have : occursIn p s.data = true := by
              rw [hab]
              exact occursIn_of_infix a b2 hocc
            rw [hvs] at this
            exact absurd this (by simp)
        · subst hl
          exact leadsWith_nil_of_ne hne
    | none =>
      rw [hfv] at hls
      simp only [pyTruthy] at hls
      have h2 : ([] : List String) = ls := by injection hls
      subst h2
      exact absurd hl (List.not_mem_nil l)
    | bool bv =>
      rw [hfv] at hls
      cases bv with
      | false =>
        simp only [pyTruthy] at hls
        have h2 : ([] : List String) = ls := by injection hls
        subst h2
        exact absurd hl (List.not_mem_nil l)
      | true =>
        simp only [pyTruthy, if_true] at hls
        exact absurd hls (by simp)
    | int nv =>
      rw [hfv] at hls
      by_cases hz : nv = 0
      · subst hz
        simp only [pyTruthy] at hls
        simp only [bne_self_eq_false, Bool.false_eq_true, if_false] at hls
        have h2 : ([] : List String) = ls := by injection hls
        subst h2
        exact absurd hl (List.not_mem_nil l)
      · have htr : pyTruthy (PyVal.int nv) = true := by
          simp [pyTruthy, hz]
        rw [htr] at hls
        simp only [if_true] at hls
        exact absurd hls (by simp)
    | list xs =>
      rw [hfv] at hls
      cases hxs : xs.isEmpty with
      | true =>
        have htr : pyTruthy (PyVal.list xs) = false := by
          simp [pyTruthy, hxs]
        rw [htr] at hls
        simp only [Bool.false_eq_true, if_false] at hls
        have h2 : ([] : List String) = ls := by injection hls
        subst h2
        exact absurd hl (List.not_mem_nil l)
      | false =>
        have htr : pyTruthy (PyVal.list xs) = true := by
          simp [pyTruthy, hxs]
        rw [htr] at hls
        simp only [if_true] at hls
        exact absurd hls (by simp)
    | dict es =>
      rw [hfv] at hls
      cases hxs : es.isEmpty with
      | true =>
        have htr : pyTruthy (PyVal.dict es) = false := by
          simp [pyTruthy, hxs]
        rw [htr] at hls
        simp only [Bool.false_eq_true, if_false] at hls
        have h2 : ([] : List String) = ls := by injection hls
        subst h2
        exact absurd hl (List.not_mem_nil l)
      | false =>
        have htr : pyTruthy (PyVal.dict es) = true := by
          simp [pyTruthy, hxs]
        rw [htr] at hls
        simp only [if_true] at hls
        exact absurd hls (by simp)

/-- Lines emitted for one single-line field at indent `""` never contain
a space-free pattern absent from the label and from the displayed
value. -/
theorem otherFieldLines_clean {p : List Char} (hne : p ≠ []) (hsp : ' ' ∉ p)
    (entries : List (String × PyVal)) (fname : String)
    (hlab : occursIn p
      ("**" ++ pyTitle (pyReplaceChar fname '_' ' ') ++ ":**").data = false)
    (hval : occursIn p
      (displayValue (extract_value (dictGet entries fname))).data = false) :
    ∀ l ∈ otherFieldLines entries "" fname, occursIn p l.data = false := by
  intro l hl
  unfold otherFieldLines at hl
  cases hd : dictHas entries fname with
  | false =>
    rw [hd] at hl
    simp only [Bool.false_eq_true, if_false] at hl
    exact absurd hl (List.not_mem_nil l)
  | true =>
    rw [hd] at hl
    simp only [if_true] at hl
    cases htr : pyTruthy (extract_value (dictGet entries fname)) with
    | false =>
      rw [htr] at hl
      simp only [Bool.false_eq_true, if_false] at hl
      exact absurd hl (List.not_mem_nil l)
    | true =>
      rw [htr] at hl
      simp only [if_true] at hl
      simp only [List.mem_cons, List.not_mem_nil, or_false] at hl
      rcases hl with hl | hl
      · subst hl
        have hshape : (("" ++ "**" ++ pyTitle (pyReplaceChar fname '_' ' ') ++
              ":** ") ++
              displayValue (extract_value (dictGet entries fname))).data =
            ("**" ++ pyTitle (pyReplaceChar fname '_' ' ') ++ ":**").data ++
              ' ' :: (displayValue (extract_value (dictGet entries fname))).data := by
          simp only [String.data_append, List.append_assoc, List.nil_append]
          rfl
        rw [hshape]
        exact occursIn_label_value hsp hlab hval
      · subst hl
        exact leadsWith_nil_of_ne hne

/-- Lines produced by a `fieldsExcept` run are clean when every field's
own lines are. -/
theorem fieldsExcept_clean {p : List Char}
    {f : String → Except String (List String)} :
    ∀ (names : List String),
      (∀ fname ∈ names, ∀ ls, f fname = Except.ok ls →
        ∀ l ∈ ls, occursIn p l.data = false) →
      ∀ ls, fieldsExcept f names = Except.ok ls →
        ∀ l ∈ ls, occursIn p l.data = false := by
  intro names
  induction names with
  | nil =>
    intro _ ls hls l hl
    have h2 : ([] : List String) = ls := by injection hls
    subst h2
    exact absurd hl (List.not_mem_nil l)
  | cons nm names ih =>
    intro h ls hls l hl
    unfold fieldsExcept at hls
    cases h1 : f nm with
    | error e =>
      rw [h1] at hls
      exact absurd hls (by simp [Bind.bind, Except.bind])
    | ok l1 =>
      rw [h1] at hls
      cases h2 : fieldsExcept f names with
      | error e =>
        rw [h2] at hls
        exact absurd hls (by simp [Bind.bind, Except.bind])
      | ok rest =>
        rw [h2] at hls
        have h3 : (Except.ok (l1 ++ rest) : Except String (List String))
            = Except.ok ls := hls
        have h4 : l1 ++ rest = ls := by injection h3
        subst h4
        rcases List.mem_append.mp hl with hm | hm
        · exact h nm (List.mem_cons_self nm names) l1 h1 l hm
        · exact ih (fun x hx => h x (List.mem_cons_of_mem nm hx)) rest h2 l hm

/-- A dict with a present key is non-empty. -/
theorem dictHas_ne_nil {entries : List (String × PyVal)} {k : String}
    (h : dictHas entries k = true) : entries.isEmpty = false := by
  cases entries with
  | nil => simp [dictHas] at h
  | cons e es => rfl

/-- Unfolding of `noteCoreLines` on a present content dict. -/
theorem noteCoreLines_some (sg : Option (List String)) (cd : Option Int)
    (entries : List (String × PyVal)) (level : Nat) :
    noteCoreLines sg cd (Option.some entries) level =
      if entries.isEmpty then
        Except.ok (noteHeaderLines sg cd (strRepeatN "  " level))
      else
        (fieldsExcept (mainFieldLines entries (strRepeatN "  " level) level)
            ["comment", "review", "summary", "response"]).bind
          (fun mainL => Except.ok
            (noteHeaderLines sg cd (strRepeatN "  " level) ++
             (titleLines entries (strRepeatN "  " level) level ++ mainL ++
              otherLines entries (strRepeatN "  " level)))) := rfl

/-- The title block is suppressed at depth 0. -/
theorem titleLines_zero (entries : List (String × PyVal)) (indent : String) :
    titleLines entries indent 0 = [] := by
  unfold titleLines
  rw [show decide ((0:Nat) > 0) = false from rfl, Bool.and_false]
  rfl

/-- At depth 0 the core block emits no line containing `"**Title:**"`
when the signature display, the date display and the nine emitted field
displays are all free of it (the title step itself is suppressed at
depth 0). -/
theorem noteCoreLines_title_free (sg : Option (List String))
    (cd : Option Int) (entries : List (String × PyVal))
    (hsig : occursIn "**Title:**".data (sigDisplay sg).data = false)
    (hdate : occursIn "**Title:**".data (dateDisplay cd).data = false)
    (hfields : ∀ fname ∈ emittedFieldNames,
      occursIn "**Title:**".data
        (displayValue (extract_value (dictGet entries fname))).data = false) :
    ∀ lines, noteCoreLines sg cd (Option.some entries) 0 = Except.ok lines →
      ∀ l ∈ lines, occursIn "**Title:**".data l.data = false := by
  intro lines hlines l hl
  have hheader : ∀ x ∈ noteHeaderLines sg cd (strRepeatN "  " 0),
      occursIn "**Title:**".data x.data = false := by
    intro x hx
    simp only [noteHeaderLines, List.mem_cons, List.not_mem_nil, or_false]
      at hx
    rcases hx with rfl | rfl | rfl
    · have hd1 : (strRepeatN "  " 0 ++ "## Comment by " ++ sigDisplay sg).data
          = "## Comment by".data ++ ' ' :: (sigDisplay sg).data := rfl
      rw [hd1]
      exact occursIn_label_value (by decide) (by decide) hsig
    · have hd2 : (strRepeatN "  " 0 ++ "**Date:** " ++ dateDisplay cd).data
          = "**Date:**".data ++ ' ' :: (dateDisplay cd).data := rfl
      rw [hd2]
      exact occursIn_label_value (by decide) (by decide) hdate
    · decide
  have hmainclean : ∀ fname ∈ (["comment", "review", "summary",
      "response"] : List String), ∀ ls,
      mainFieldLines entries "" 0 fname = Except.ok ls →
      ∀ x ∈ ls, occursIn "**Title:**".data x.data = false := by
    intro fname hf
    simp only [List.mem_cons, List.not_mem_nil, or_false] at hf
    rcases hf with rfl | rfl | rfl | rfl
    · exact mainFieldLines_clean (by decide) entries 0 _ (by decide)
        (hfields _ (by decide))
    · exact mainFieldLines_clean (by decide) entries 0 _ (by decide)
        (hfields _ (by decide))
    · exact mainFieldLines_clean (by decide) entries 0 _ (by decide)
        (hfields _ (by decide))
    · exact mainFieldLines_clean (by decide) entries 0 _ (by decide)
        (hfields _ (by decide))
  have hotherclean : ∀ x ∈ otherLines entries "",
      occursIn "**Title:**".data x.data = false := by
    intro x hx
    obtain ⟨bucket, hb, hxb⟩ := List.mem_flatten.mp hx
    obtain ⟨fname, hf, hfb⟩ := List.mem_map.mp hb
    subst hfb
    simp only [List.mem_cons, List.not_mem_nil, or_false] at hf
    rcases hf with rfl | rfl | rfl | rfl | rfl
    · exact otherFieldLines_clean (by decide) (by decide) entries _
        (by decide) (hfields _ (by decide)) x hxb
    · exact otherFieldLines_clean (by decide) (by decide) entries _
        (by decide) (hfields _ (by decide)) x hxb
    · exact otherFieldLines_clean (by decide) (by decide) entries _
        (by decide) (hfields _ (by decide)) x hxb
    · exact otherFieldLines_clean (by decide) (by decide) entries _
        (by decide) (hfields _ (by decide)) x hxb
    · exact otherFieldLines_clean (by decide) (by decide) entries _
        (by decide) (hfields _ (by decide)) x hxb
  rw [noteCoreLines_some] at hlines
  have hind : strRepeatN "  " 0 = "" := rfl
  cases hemp : entries.isEmpty with
  | true =>
    rw [hemp] at hlines
    simp only [if_true] at hlines
    have h4 := Except.ok.inj hlines
    subst h4
    exact hheader l hl
  | false =>
    rw [hemp] at hlines
    simp only [Bool.false_eq_true, if_false] at hlines
    cases hmain : fieldsExcept (mainFieldLines entries (strRepeatN "  " 0) 0)
        ["comment", "review", "summary", "response"] with
    | error e =>
      rw [hmain] at hlines
      exact absurd hlines (by simp [Except.bind])
    | ok mainL =>
      rw [hmain] at hlines
      have h4 := Except.ok.inj hlines
      subst h4
      rcases List.mem_append.mp hl with hm | hm
      · exact hheader l hm
      · rw [titleLines_zero, List.nil_append] at hm
        rcases List.mem_append.mp hm with hm2 | hm2
        · rw [hind] at hmain
          exact fieldsExcept_clean _ hmainclean mainL hmain l hm2
        · rw [hind] at hm2
          exact hotherclean l hm2

/-- At depth ≥ 1 with a non-empty string title, the title line is among
the core lines. -/
theorem noteCoreLines_title_mem (sg : Option (List String))
    (cd : Option Int) (entries : List (String × PyVal)) (d : Nat)
    (tv : String) (hd : 1 ≤ d)
    (htitle : dictHas entries "title" = true)
    (hex : extract_value (dictGet entries "title") = PyVal.str tv)
    (htv : tv ≠ "") :
    ∀ lines, noteCoreLines sg cd (Option.some entries) d = Except.ok lines →
      (strRepeatN "  " d ++ "**Title:** " ++ tv) ∈ lines := by
  intro lines hlines
  rw [noteCoreLines_some, dictHas_ne_nil htitle] at hlines
  simp only [Bool.false_eq_true, if_false] at hlines
  cases hmain : fieldsExcept (mainFieldLines entries (strRepeatN "  " d) d)
      ["comment", "review", "summary", "response"] with
  | error e =>
    rw [hmain] at hlines
    exact absurd hlines (by simp [Except.bind])
  | ok mainL =>
    rw [hmain] at hlines
    have h4 := Except.ok.inj hlines
    subst h4
    have htl : titleLines entries (strRepeatN "  " d) d
        = [strRepeatN "  " d ++ "**Title:** " ++ tv, ""] := by
      unfold titleLines
      rw [htitle, hex]
      have hdec : decide (d > 0) = true := decide_eq_true hd
      rw [hdec]
      have htr : pyTruthy (PyVal.str tv) = true := by
        simp [pyTruthy, htv]
      rw [htr]
      rfl
    rw [htl]
    exact List.mem_append.mpr (Or.inr (List.mem_append.mpr (Or.inl
      (List.mem_append.mpr (Or.inl (List.mem_cons_self _ _))))))

/-- Unfolding of `format_note` for a note without reply data: whatever
`include_replies` is, no Replies block is emitted. -/
theorem format_note_noReplies (i : Option String) (sg : Option (List String))
    (cd : Option Int) (rt : Option String)
    (ct : Option (List (String × PyVal))) (b : Bool) (level : Nat) :
    format_note (Note.mk i sg cd rt ct Option.none) b level =
      (noteCoreLines sg cd ct level).bind (fun core =>
        Except.ok (pyJoinNl (core ++ [] ++
          [strRepeatN "  " level ++ "---", ""]))) := by
  cases b with
  | false => rfl
  | true => rfl

/-- C7 (amended): for a node with a non-empty extracted string title, no
advisory reply data, and whose signature display, date display and nine
emitted field displays do not contain `"**Title:**"`, the render at
depth 0 contains no `"**Title:**"` line while the render at any depth
≥ 1 contains `"**Title:** <value>"`.  (Without the no-injection side
conditions the claim is false: a comment body may spell the marker
itself.) -/
theorem claim_C7 (i : Option String) (sg : Option (List String))
    (cd : Option Int) (rt : Option String) (entries : List (String × PyVal))
    (b : Bool) (tv : String)
    (htitle : dictHas entries "title" = true)
    (hex : extract_value (dictGet entries "title") = PyVal.str tv)
    (htv : tv ≠ "")
    (hsig : strOccurs "**Title:**" (sigDisplay sg) = false)
    (hdate : strOccurs "**Title:**" (dateDisplay cd) = false)
    (hfields : ∀ fname ∈ emittedFieldNames,
      strOccurs "**Title:**"
        (displayValue (extract_value (dictGet entries fname))) = false) :
    (∀ out, format_note (Note.mk i sg cd rt (Option.some entries)
        Option.none) b 0 = Except.ok out →
      strOccurs "**Title:**" out = false) ∧
    (∀ d out, 1 ≤ d →
      format_note (Note.mk i sg cd rt (Option.some entries) Option.none) b d
        = Except.ok out →
      strOccurs ("**Title:** " ++ tv) out = true) := by
  constructor
  · intro out hout
    rw [format_note_noReplies] at hout
    cases hcore : noteCoreLines sg cd (Option.some entries) 0 with
    | error e =>
      rw [hcore] at hout
      exact absurd hout (by simp [Except.bind])
    | ok core =>
      rw [hcore] at hout
      have h2 := Except.ok.inj hout
      subst h2
      show occursIn "**Title:**".data
        (pyJoinNl (core ++ [] ++ [strRepeatN "  " 0 ++ "---", ""])).data
          = false
      apply occursIn_pyJoinNl_false (by decide) (by decide)
      intro x hx
      rcases List.mem_append.mp hx with hm | hm
      · rcases List.mem_append.mp hm with hm2 | hm2
        · exact noteCoreLines_title_free sg cd entries hsig hdate hfields
            core hcore x hm2
        · exact absurd hm2 (List.not_mem_nil x)
      · simp only [List.mem_cons, List.not_mem_nil, or_false] at hm
        rcases hm with rfl | rfl
        · decide
        · decide
  · intro d out hd1 hout
    rw [format_note_noReplies] at hout
    cases hcore : noteCoreLines sg cd (Option.some entries) d with
    | error e =>
      rw [hcore] at hout
      exact absurd hout (by simp [Except.bind])
    | ok core =>
      rw [hcore] at hout
      have h2 := Except.ok.inj hout
      subst h2
      have hmem := noteCoreLines_title_mem sg cd entries d tv hd1 htitle
        hex htv core hcore
      have hmem2 : (strRepeatN "  " d ++ "**Title:** " ++ tv) ∈
          (core ++ [] ++ [strRepeatN "  " d ++ "---", ""]) :=
        List.mem_append.mpr (Or.inl (List.mem_append.mpr (Or.inl hmem)))
      show occursIn ("**Title:** " ++ tv).data
        (pyJoinNl (core ++ [] ++ [strRepeatN "  " d ++ "---", ""])).data
          = true
      apply occursIn_pyJoinNl_of_mem hmem2
      have hdata : (strRepeatN "  " d ++ "**Title:** " ++ tv).data
          = (strRepeatN "  " d).data ++ ("**Title:** " ++ tv).data := by
        simp [String.data_append, List.append_assoc]
      rw [hdata]
      exact occursIn_append_left _
        (occursIn_of_leadsWith (leadsWith_refl _))

/-- C7 (counterexample): the claim as stated is false — a node whose
`title` is non-empty but whose `comment` body itself spells
`"**Title:** fake"` renders at depth 0 with a `"**Title:**"` line even
though the title step is suppressed there. -/
theorem claim_C7_counterexample :
    ∃ out, format_note titleInjectionNote false 0 = Except.ok out ∧
      strOccurs "**Title:**" out = true := by
  refine ⟨_, rfl, ?_⟩
  decide

/-- Witness for the amended C7 on a benign node: no marker at depth 0,
title line present at depth 1. -/
theorem claim_C7_witness :
    strOccurs "**Title:**" c7Out0 = false ∧
    strOccurs ("**Title:** " ++ "Real title") c7Out1 = true := by
  constructor
  · exact (claim_C7 (Option.some "t7") (Option.some ["SigT"]) Option.none
      Option.none [("title", PyVal.str "Real title"),
        ("comment", PyVal.str "hello")] false "Real title"
      (by decide) rfl (by decide) (by decide) (by decide) (by decide)).1
      c7Out0 rfl
  · exact (claim_C7 (Option.some "t7") (Option.some ["SigT"]) Option.none
      Option.none [("title", PyVal.str "Real title"),
        ("comment", PyVal.str "hello")] false "Real title"
      (by decide) rfl (by decide) (by decide) (by decide) (by decide)).2
      1 c7Out1 (by decide) rfl

/-- C1: rendering the whole four-node thread (root `S`; `C1`,`C2` under
`S` at times 100, 200; `G1` under `C1` at time 300; no note has an
inline reply summary) puts `C1`'s text before `G1`'s text, `G1`'s text
before `C2`'s block header, and `C1`'s text before `C2`'s text. -/
theorem claim_C1 :
    ∃ out, format_all_notes [noteS, noteC1, noteC2, noteG1] "Doc Title" =
        Except.ok out ∧
      (ltOpt (strIdx "C1TEXT" out) (strIdx "G1TEXT" out) &&
       ltOpt (strIdx "G1TEXT" out) (strIdx "## Comment by SigC2" out) &&
       ltOpt (strIdx "C1TEXT" out) (strIdx "C2TEXT" out)) = true := by
  refine ⟨_, rfl, ?_⟩
  decide

/-- C2 (failing input): `_extract_value` on the wrapped number
`{value: 5}` returns the Python `int` `5` itself — neither a display
string nor an absent result, contradicting the function's own
`-> str | None` annotation — and on the raw boolean `True` it returns
the string `"True"` rather than an absent result (Python `bool` passes
`isinstance(field, (int, float))`). -/
theorem claim_C2 :
    extract_value (PyVal.dict [("value", PyVal.int 5)]) = PyVal.int 5 ∧
    extract_value (PyVal.bool true) = PyVal.str "True" :=
  ⟨rfl, rfl⟩

/-- C3 (counterexample): decoding is a single pass, so the double-escaped
input `"&amp;amp;"` extracts to `"&amp;"`, which still contains the raw
entity sequence `"&amp;"` — refuting "for every input the returned
string never still contains those raw entity sequences". -/
theorem claim_C3_counterexample :
    extract_value (PyVal.str "&amp;amp;") = PyVal.str "&amp;" ∧
    strOccurs "&amp;" "&amp;" = true :=
  ⟨rfl, rfl⟩

/-- C3 (amended): the three example extractions decode as specified and
their outputs contain no raw entity sequences; the universal
"never re-contains" guarantee holds only when the decoded text does not
itself spell an entity (single-pass decoding). -/
theorem claim_C3 :
    extract_value (PyVal.str "It&#39;s") = PyVal.str "It\x27s" ∧
    extract_value (PyVal.str "A &amp; B") = PyVal.str "A & B" ∧
    extract_value (PyVal.str "&lt;x&gt;") = PyVal.str "<x>" ∧
    entityFree "It\x27s" = true ∧ entityFree "A & B" = true ∧
    entityFree "<x>" = true :=
  ⟨rfl, rfl, rfl, rfl, rfl, rfl⟩

/-- C8: the whole-thread render of an empty note list contains the
level-1 title line and `**Total Comments:** 0`, and (when the given
title does not itself contain `"Main Submission"`) no
`"# Main Submission"` section. -/
theorem claim_C8 (t : String)
    (hclean : strOccurs "Main Submission" t = false) :
    ∃ out, format_all_notes [] t = Except.ok out ∧
      strOccurs ("# " ++ t) out = true ∧
      strOccurs "**Total Comments:** 0" out = true ∧
      strOccurs "# Main Submission" out = false := by
  have hout : format_all_notes [] t =
      Except.ok (("# " ++ t) ++ "\n" ++ c8tail) := rfl
  have hd : ((("# " ++ t) ++ "\n") ++ c8tail).data
      = ("# " ++ t).data ++ ('\n' :: c8tail.data) := by
    simp only [String.data_append, List.append_assoc, List.singleton_append]
  refine ⟨_, hout, ?_, ?_, ?_⟩
  · show occursIn ("# " ++ t).data ((("# " ++ t) ++ "\n") ++ c8tail).data = true
    rw [hd]
    exact occursIn_self_append _ _
  · show occursIn "**Total Comments:** 0".data
      ((("# " ++ t) ++ "\n") ++ c8tail).data = true
    rw [hd]
    exact occursIn_append_left _ (by decide)
  · show occursIn "# Main Submission".data
      ((("# " ++ t) ++ "\n") ++ c8tail).data = false
    have hp : ("# " ++ t).data = '#' :: ' ' :: t.data := by
      simp only [String.data_append]
      rfl
    rw [hd, hp, occursIn_append_cons _ _ (by decide)]
    have htail : occursIn "# Main Submission".data c8tail.data = false := by
      decide
    rw [htail, Bool.or_false]
    have hsub : occursIn "Main Submission".data t.data = false := hclean
    cases hlw : leadsWith "Main Submission".data t.data with
    | true => exact absurd (occursIn_of_leadsWith hlw) (by simp [hsub])
    | false =>
      cases hocc : occursIn "# Main Submission".data t.data with
      | true =>
        have h1 := occursIn_cons_pattern (c := '#') hocc
        have h2 := occursIn_cons_pattern (c := ' ') h1
        exact absurd h2 (by simp [hsub])
      | false =>
        show (leadsWith "# Main Submission".data ('#' :: ' ' :: t.data) ||
          (leadsWith "# Main Submission".data (' ' :: t.data) ||
            occursIn "# Main Submission".data t.data)) = false
        rw [hocc]
        have hl1 : leadsWith "# Main Submission".data ('#' :: ' ' :: t.data)
            = leadsWith "Main Submission".data t.data := by
          show (('#' == '#') && ((' ' == ' ') &&
            leadsWith "Main Submission".data t.data)) = _
          simp
        have hl2 : leadsWith "# Main Submission".data (' ' :: t.data) = false := by
          show (('#' == ' ') && _) = false
          simp
        rw [hl1, hlw, hl2]
        rfl

/-- Witness for C8 at the default document title. -/
theorem claim_C8_witness :
    ∃ out, format_all_notes [] "OpenReview Comments" = Except.ok out ∧
      strOccurs ("# " ++ "OpenReview Comments") out = true ∧
      strOccurs "**Total Comments:** 0" out = true ∧
      strOccurs "# Main Submission" out = false :=
  claim_C8 "OpenReview Comments" (by decide)

/-- C9: `format_note_to_file` returns the single-note render (with
direct replies, depth 0) paired with the filename
`<YYYYMMDD-or-unknown>_<signatures with / and space replaced by _>.md`;
at the example note (created 2021-01-01, signature "Reviewer ABC") the
filename is `20210101_Reviewer_ABC.md`. -/
theorem claim_C9 :
    (∀ (n : Note) (hint : String),
      format_note_to_file n hint =
        (format_note n true 0).map (fun md =>
          (md,
            (match cdateTruthy n.cdate with
             | Option.some c => fmtYYYYMMDD c
             | Option.none => "unknown") ++ "_" ++
            pyReplaceChar (pyReplaceChar (sigDisplay n.signatures) '/' '_')
              ' ' '_' ++ ".md"))) ∧
    (format_note_to_file noteReviewerABC "").map (fun p => p.2) =
      Except.ok "20210101_Reviewer_ABC.md" := by
  constructor
  · intro n hint
    cases n with
    | mk i sg cd rt ct dt =>
      show (do
        let markdown ← format_note (Note.mk i sg cd rt ct dt) true 0
        Except.ok (markdown, _)) = _
      cases h : format_note (Note.mk i sg cd rt ct dt) true 0 with
      | ok md => rfl
      | error e => rfl
  · rfl

/-- C6 (failing input): on a note whose `comment` field is the wrapped
number `{value: 5}` — a malformed content field — `format_note` raises
`AttributeError` (it calls `.split("\n")` on the `int` that
`_extract_value` passed through), contradicting "the core rendering
operations raise no exception". -/
theorem claim_C6 :
    format_note crashNote true 0 =
      Except.error "AttributeError: object has no attribute split" :=
  rfl

end ORC
